import Mathlib

/-!
Verification development for the sat-bucket repository (satbucket/routines.py,
satbucket/info.py): a shallow embedding of the temporal grouping engine, the
filename-information helpers, the per-granule ingestion pipeline and the
bucket merge routine, together with theorems about the behaviour of these
functions.

Python exceptions are modelled by the `PyError` type; a Python function that
can raise is embedded as a function into `Except PyError _`.  pandas
timestamps are modelled by the `Timestamp` structure (calendar fields plus
time-of-day in nanoseconds); chronological comparison of two timestamps is
comparison of their `key` encodings.
-/

/-- Kinds of Python exceptions raised by the embedded code. -/
inductive PyError where
  | valueError (msg : String)
  | typeError (msg : String)
  | notImplementedError (msg : String)
  | osError (msg : String)
  | nameError (msg : String)
deriving DecidableEq, Repr

/-- Nanoseconds per day: bound for the time-of-day field of a `Timestamp`
(pandas timestamps have nanosecond resolution). -/
def todBound : Nat := 86400000000000

/-- Model of a `pandas.Timestamp`: a calendar date (year, month, day)
plus the time of day in nanoseconds. -/
structure Timestamp where
  year : Nat
  month : Nat
  day : Nat
  tod : Nat
deriving DecidableEq, Repr

namespace Timestamp

/-- Injective (on valid timestamps) monotone encoding of a timestamp into a
natural number; chronological order of timestamps is the order of keys. -/
def key (t : Timestamp) : Nat :=
  ((t.year * 16 + t.month) * 32 + t.day) * todBound + t.tod

/-- Chronological order (via the `key` encoding). -/
def le (a b : Timestamp) : Prop := key a ≤ key b

/-- Strict chronological order (via the `key` encoding). -/
def lt (a b : Timestamp) : Prop := key a < key b

instance : LE Timestamp := ⟨le⟩
instance : LT Timestamp := ⟨lt⟩

instance (a b : Timestamp) : Decidable (a ≤ b) :=
  inferInstanceAs (Decidable (key a ≤ key b))

instance (a b : Timestamp) : Decidable (a < b) :=
  inferInstanceAs (Decidable (key a < key b))

theorem le_def (a b : Timestamp) : (a ≤ b) = (key a ≤ key b) := rfl

theorem lt_def (a b : Timestamp) : (a < b) = (key a < key b) := rfl

end Timestamp

/-- Python `max(x, y)`: returns `y` exactly when `y > x`. -/
def pymax (x y : Timestamp) : Timestamp := if x < y then y else x

/-- Python `min(x, y)`: returns `y` exactly when `y < x`. -/
def pymin (x y : Timestamp) : Timestamp := if y < x then y else x

/-- Gregorian leap year test (as implemented by pandas/`calendar`). -/
def isLeapYear (y : Nat) : Bool :=
  y % 4 == 0 && (y % 100 != 0 || y % 400 == 0)

/-- Number of days of month `m` of year `y` in the Gregorian calendar. -/
def daysInMonth (y m : Nat) : Nat :=
  if m = 1 ∨ m = 3 ∨ m = 5 ∨ m = 7 ∨ m = 8 ∨ m = 10 ∨ m = 12 then 31
  else if m = 4 ∨ m = 6 ∨ m = 9 ∨ m = 11 then 30
  else if m = 2 then (if isLeapYear y then 29 else 28)
  else 0

/-- A structurally well-formed timestamp: the calendar fields denote a real
Gregorian date and the time of day is within one day. -/
def Timestamp.Valid (t : Timestamp) : Prop :=
  1 ≤ t.month ∧ t.month ≤ 12 ∧ 1 ≤ t.day ∧ t.day ≤ daysInMonth t.year t.month ∧
    t.tod < todBound

instance (t : Timestamp) : Decidable t.Valid := by
  unfold Timestamp.Valid; infer_instance

theorem daysInMonth_pos {y m : Nat} (h1 : 1 ≤ m) (h2 : m ≤ 12) :
    1 ≤ daysInMonth y m := by
  unfold daysInMonth
  interval_cases m <;> (simp; try split) <;> omega

theorem daysInMonth_le {y m : Nat} : daysInMonth y m ≤ 31 := by
  unfold daysInMonth
  split
  · omega
  · split
    · omega
    · split
      · split <;> omega
      · omega

/-- `t.normalize`: the timestamp truncated to midnight
(`pandas.Timestamp.normalize`). -/
def Timestamp.normalize (t : Timestamp) : Timestamp :=
  ⟨t.year, t.month, t.day, 0⟩

/-- Midnight of the calendar day after the day of `t`
(`midnight + pd.DateOffset(days=1)`). -/
def succDay (t : Timestamp) : Timestamp :=
  if t.day < daysInMonth t.year t.month then ⟨t.year, t.month, t.day + 1, 0⟩
  else if t.month < 12 then ⟨t.year, t.month + 1, 1, 0⟩
  else ⟨t.year + 1, 1, 1, 0⟩

theorem succDay_valid {t : Timestamp} (h : t.Valid) : (succDay t).Valid := by
  obtain ⟨h1, h2, h3, h4, h5⟩ := h
  unfold succDay Timestamp.Valid
  split
  · simp only
    refine ⟨h1, h2, by omega, by omega, by simp [todBound]⟩
  · split
    · simp only
      have := daysInMonth_pos (y := t.year) (m := t.month + 1) (by omega) (by omega)
      exact ⟨by omega, by omega, le_refl 1, this, by simp [todBound]⟩
    · simp only
      have := daysInMonth_pos (y := t.year + 1) (m := 1) (by omega) (by omega)
      exact ⟨le_refl 1, by omega, le_refl 1, this, by simp [todBound]⟩

theorem succDay_lt {t : Timestamp} (h : t.Valid) : t < succDay t := by
  obtain ⟨h1, h2, h3, h4, h5⟩ := h
  have hd : t.day ≤ 31 := le_trans h4 daysInMonth_le
  simp only [todBound] at h5
  rw [Timestamp.lt_def]
  unfold succDay
  split
  · simp only [Timestamp.key, todBound]; omega
  · split
    · simp only [Timestamp.key, todBound]; omega
    · simp only [Timestamp.key, todBound]; omega

/-! ### Decimal rendering of naturals (Python `str(n)` / f-string fields) -/

/-- Little-endian decimal digit characters of `n`; structural recursion on
`fuel` (any `fuel ≥ n` produces all digits, since `n / 10 < n`). -/
def decDigitsAux : Nat → Nat → List Char
  | 0, _ => []
  | _ + 1, 0 => []
  | fuel + 1, n => Nat.digitChar (n % 10) :: decDigitsAux fuel (n / 10)

/-- Python `str(n)` for a natural number `n` (used by the f-strings of
`get_time_prefix`). -/
def pyNatStr (n : Nat) : String :=
  if n = 0 then "0" else String.mk (decDigitsAux n n).reverse

/-- Numeric value of a decimal digit character. -/
def digitVal (c : Char) : Nat := c.toNat - 48

/-- Value of a little-endian decimal digit character list. -/
def valLE : List Char → Nat
  | [] => 0
  | c :: cs => digitVal c + 10 * valLE cs

theorem digitVal_digitChar {d : Nat} (h : d < 10) :
    digitVal (Nat.digitChar d) = d := by
  interval_cases d <;> rfl

theorem valLE_decDigitsAux : ∀ fuel n, n ≤ fuel → valLE (decDigitsAux fuel n) = n := by
  intro fuel
  induction fuel with
  | zero => intro n h; interval_cases n; rfl
  | succ f ih =>
    intro n h
    match n with
    | 0 => rfl
    | k + 1 =>
      show valLE (Nat.digitChar ((k + 1) % 10) :: decDigitsAux f ((k + 1) / 10)) = k + 1
      have hdiv : (k + 1) / 10 ≤ f := by
        have : (k + 1) / 10 < k + 1 := Nat.div_lt_self (by omega) (by omega)
        omega
      show digitVal (Nat.digitChar ((k + 1) % 10)) + 10 * valLE (decDigitsAux f ((k + 1) / 10)) = k + 1
      rw [ih _ hdiv, digitVal_digitChar (Nat.mod_lt _ (by omega))]
      omega

theorem mem_decDigitsAux : ∀ fuel n c, c ∈ decDigitsAux fuel n →
    ∃ d, d < 10 ∧ c = Nat.digitChar d := by
  intro fuel
  induction fuel with
  | zero => intro n c h; simp [decDigitsAux] at h
  | succ f ih =>
    intro n c h
    match n with
    | 0 => simp [decDigitsAux] at h
    | k + 1 =>
      rw [show decDigitsAux (f + 1) (k + 1) =
            Nat.digitChar ((k + 1) % 10) :: decDigitsAux f ((k + 1) / 10) from rfl] at h
      rcases List.mem_cons.mp h with h | h
      · exact ⟨(k + 1) % 10, Nat.mod_lt _ (by omega), h⟩
      · exact ih _ _ h

theorem underscore_not_mem_pyNatStr (n : Nat) : '_' ∉ (pyNatStr n).data := by
  unfold pyNatStr
  split
  · intro h
    simp only [String.data] at h
    revert h; decide
  · intro h
    simp only [String.data] at h
    rw [List.mem_reverse] at h
    obtain ⟨d, hd, he⟩ := mem_decDigitsAux _ _ _ h
    revert he
    interval_cases d <;> decide

theorem pyNatStr_inj {a b : Nat} (h : pyNatStr a = pyNatStr b) : a = b := by
  unfold pyNatStr at h
  by_cases ha : a = 0 <;> by_cases hb : b = 0 <;> simp [ha, hb] at h ⊢
  · -- a = 0, b ≠ 0
    exfalso
    have h0 : ("0" : String).data = (String.mk (decDigitsAux b b).reverse).data := by rw [h]
    simp only [String.data] at h0
    have : decDigitsAux b b = ['0'] := by
      have := congrArg List.reverse h0
      simpa using this.symm
    have hv := valLE_decDigitsAux b b (le_refl b)
    rw [this] at hv
    simp [valLE, digitVal] at hv
    omega
  · -- a ≠ 0, b = 0
    exfalso
    have h0 : (String.mk (decDigitsAux a a).reverse).data = ("0" : String).data := by rw [h]
    simp only [String.data] at h0
    have : decDigitsAux a a = ['0'] := by
      have := congrArg List.reverse h0
      simpa using this
    have hv := valLE_decDigitsAux a a (le_refl a)
    rw [this] at hv
    simp [valLE, digitVal] at hv
    omega
  · have h0 : (String.mk (decDigitsAux a a).reverse).data = (String.mk (decDigitsAux b b).reverse).data := by
      rw [h]
    simp only [String.data] at h0
    have hl : decDigitsAux a a = decDigitsAux b b := by
      have := congrArg List.reverse h0
      simpa using this
    have hva := valLE_decDigitsAux a a (le_refl a)
    have hvb := valLE_decDigitsAux b b (le_refl b)
    rw [hl, hvb] at hva
    omega

/-- Splitting at the first `'_'` is unique when neither left part contains
`'_'`. -/
theorem append_underscore_inj :
    ∀ (l1 l2 t1 t2 : List Char), '_' ∉ l1 → '_' ∉ l2 →
      l1 ++ '_' :: t1 = l2 ++ '_' :: t2 → l1 = l2 ∧ t1 = t2 := by
  intro l1
  induction l1 with
  | nil =>
    intro l2 t1 t2 _ h2 h
    cases l2 with
    | nil => simpa using h
    | cons c cs =>
      simp only [List.nil_append, List.cons_append, List.cons.injEq] at h
      exact absurd (h.1 ▸ List.mem_cons_self c cs) h2
  | cons c cs ih =>
    intro l2 t1 t2 h1 h2 h
    cases l2 with
    | nil =>
      simp only [List.cons_append, List.nil_append, List.cons.injEq] at h
      exact absurd (h.1 ▸ List.mem_cons_self c cs) h1
    | cons c' cs' =>
      simp only [List.cons_append, List.cons.injEq] at h
      obtain ⟨hc, hrest⟩ := h
      have := ih cs' t1 t2 (fun hm => h1 (List.mem_cons_of_mem _ hm))
        (fun hm => h2 (List.mem_cons_of_mem _ hm)) hrest
      exact ⟨by rw [hc, this.1], this.2⟩

/-- Unique decomposition of strings of the shape `str(a) ++ "_" ++ r`. -/
theorem pyNatStr_underscore_inj {a b : Nat} {r s : String}
    (h : pyNatStr a ++ "_" ++ r = pyNatStr b ++ "_" ++ s) : a = b ∧ r = s := by
  have hdata : (pyNatStr a).data ++ '_' :: r.data = (pyNatStr b).data ++ '_' :: s.data := by
    have := congrArg String.data h
    simpa [String.data_append] using this
  have := append_underscore_inj _ _ _ _ (underscore_not_mem_pyNatStr a)
    (underscore_not_mem_pyNatStr b) hdata
  exact ⟨pyNatStr_inj (String.ext this.1), String.ext this.2⟩

/-! ### Embedding of satbucket/info.py -/

/-- Result value of `_get_info_from_filename`: either a parsed info
dictionary (with `start_time` and `end_time` entries) or — returned, not
raised — a `ValueError` object (info.py line 131 is `return ValueError(...)`,
not `raise`). -/
inductive InfoResult where
  | infoDict (start_time end_time : Timestamp)
  | valueErrorObject (msg : String)
deriving DecidableEq, Repr

/-- The call expression `parse_filename_pattern(filename, pattern=pattern)`
at info.py line 122.  The function is declared as
`parse_filename_pattern(filename, filename_pattern)`; it has no parameter
named `pattern`, so Python raises `TypeError` at the call site, before the
function body (and the trollsift parser) ever runs. -/
def parse_filename_pattern_kwcall (_filename _pattern : String) :
    Except PyError InfoResult :=
  .error (.typeError
    "parse_filename_pattern() got an unexpected keyword argument 'pattern'")

/-- The `for pattern in filename_patterns` loop of `_get_info_from_filename`:
each iteration tries `parse_filename_pattern(filename, pattern=pattern)`
inside `try/except Exception: pass`, and the loop breaks at the first pattern
that produced a dictionary with both time keys. -/
def _get_info_loop (filename : String) : List String → Option InfoResult
  | [] => none
  | p :: rest =>
    match parse_filename_pattern_kwcall filename p with
    | .ok d => some d
    | .error _ => _get_info_loop filename rest

/-- `_get_info_from_filename` (info.py lines 115-133). -/
def _get_info_from_filename (filename : String) (filename_patterns : List String) :
    Except PyError InfoResult :=
  match _get_info_loop filename filename_patterns with
  | some d => .ok d
  | none => .ok (.valueErrorObject "Invalid pattern specified.")

/-- Split a character list at every occurrence of `c` (the semantics of
Python `str.split(c)`). -/
def splitOnChar (c : Char) : List Char → List (List Char)
  | [] => [[]]
  | x :: xs =>
    let r := splitOnChar c xs
    if x = c then [] :: r
    else
      match r with
      | [] => [[x]]
      | y :: ys => (x :: y) :: ys

/-- Python `str.split(c)` on strings. -/
def pySplitOn (s : String) (c : Char) : List String :=
  (splitOnChar c s.data).map String.mk

/-- `os.path.basename`: the component after the last `/`. -/
def pyBasename (p : String) : String := (pySplitOn p '/').getLastD p

/-- `get_info_from_filepath` (info.py lines 136-141). -/
def get_info_from_filepath (filepath : String) (filename_pattern : List String) :
    Except PyError InfoResult :=
  _get_info_from_filename (pyBasename filepath) filename_pattern

/-- `get_key_from_filepath` (info.py lines 144-146): subscripts the result of
`get_info_from_filepath` with `key`; when that result is a `ValueError`
object, the subscript raises `TypeError`. -/
def get_key_from_filepath (filepath key : String) (filename_pattern : List String) :
    Except PyError Timestamp := do
  match ← get_info_from_filepath filepath filename_pattern with
  | .infoDict s e =>
    if key = "start_time" then pure s
    else if key = "end_time" then pure e
    else .error (.valueError "KeyError")
  | .valueErrorObject _ =>
    .error (.typeError "'ValueError' object is not subscriptable")

/-- `get_key_from_filepaths` (info.py lines 149-153). -/
def get_key_from_filepaths (filepaths : List String) (key : String)
    (filename_pattern : List String) : Except PyError (List Timestamp) :=
  filepaths.mapM (fun fp => get_key_from_filepath fp key filename_pattern)

/-- `get_start_end_time_from_filepaths` (info.py lines 161-165): collects the
per-file start and end times and then evaluates `np.array(...)` — but
info.py never imports numpy, so once both list comprehensions succeed the
name `np` raises `NameError`. -/
def get_start_end_time_from_filepaths (filepaths : List String)
    (filename_pattern : List String) :
    Except PyError (List Timestamp × List Timestamp) := do
  let _ ← get_key_from_filepaths filepaths "start_time" filename_pattern
  let _ ← get_key_from_filepaths filepaths "end_time" filename_pattern
  .error (.nameError "name 'np' is not defined")

/-! ### Embedding of the temporal grouping in satbucket/routines.py -/

/-- `check_temporal_partitioning` (routines.py lines 325-332).  Note the
list of accepted values in the source is
`["year", "month", "season", "quarter"]` — it contains `"season"` and does
not contain `"day"`. -/
def check_temporal_partitioning (tp : String) : Except PyError String :=
  if tp = "year" ∨ tp = "month" ∨ tp = "season" ∨ tp = "quarter" then .ok tp
  else .error (.valueError
    "Invalid value. Valid values are year, month, season, quarter")

/-- `get_time_prefix` (routines.py lines 372-384): the f-string time label
of a timestep for each temporal partitioning. -/
def get_time_prefix_fn (t : Timestamp) (tp : String) : Except PyError String :=
  if tp = "year" then .ok (pyNatStr t.year)
  else if tp = "month" then .ok (pyNatStr t.year ++ "_" ++ pyNatStr t.month)
  else if tp = "quarter" then
    .ok (pyNatStr t.year ++ "_" ++ pyNatStr ((t.month - 1) / 3 + 1))
  else if tp = "day" then
    .ok (pyNatStr t.year ++ "_" ++ pyNatStr t.month ++ "_" ++ pyNatStr t.day)
  else .error (.notImplementedError "Invalid temporal_partitioning")

/-- First day of year `y` (`pd.Timestamp(f"{y}-01-01")`). -/
def yearStartTs (y : Nat) : Timestamp := ⟨y, 1, 1, 0⟩

/-- First day of the month of `t`. -/
def monthStartTs (t : Timestamp) : Timestamp := ⟨t.year, t.month, 1, 0⟩

/-- Linear month index (used to embed `pd.date_range(..., freq="MS")`). -/
def monthIdx (t : Timestamp) : Nat := t.year * 12 + (t.month - 1)

/-- Month start timestamp of a linear month index. -/
def ofMonthIdx (k : Nat) : Timestamp := ⟨k / 12, k % 12 + 1, 1, 0⟩

/-- Linear quarter index (used to embed `pd.date_range(..., freq="QS")`,
quarters starting January, April, July, October). -/
def qIdx (t : Timestamp) : Nat := t.year * 4 + (t.month - 1) / 3

/-- Quarter start timestamp of a linear quarter index. -/
def ofQIdx (k : Nat) : Timestamp := ⟨k / 4, k % 4 * 3 + 1, 1, 0⟩

/-- Starting month of the quarter of month `m`
(`3 * ((m - 1) // 3 + 1 - 1) + 1` in the source). -/
def quarterStartMonth (m : Nat) : Nat := 3 * ((m - 1) / 3) + 1

/-- Year of the adjusted end bound of the `"year"` branch: `end_time` is
pushed to the next year start unless it already is one
(`end_time + pd.DateOffset(years=1)` adds one to the year field). -/
def yearEndBound (e : Timestamp) : Nat :=
  if e ≠ yearStartTs e.year then e.year + 1 else e.year

/-- The `"year"` branch of `get_partitioning_boundaries`:
`pd.date_range(start-year-01-01, end-year-01-01, freq="YS")` — every year
start between the two bounds, inclusive (empty when the end bound is before
the start bound). -/
def yearBoundaries (s e : Timestamp) : List Timestamp :=
  if s.year ≤ yearEndBound e then
    (List.range (yearEndBound e - s.year + 1)).map (fun i => yearStartTs (s.year + i))
  else []

/-- Linear month index of the adjusted end bound of the `"month"` branch:
`end_time + pd.DateOffset(months=1)` advances the linear month index by
one. -/
def monthEndIdx (e : Timestamp) : Nat :=
  if e ≠ monthStartTs e then monthIdx e + 1 else monthIdx e

/-- The `"month"` branch of `get_partitioning_boundaries`:
`pd.date_range(..., freq="MS")` enumerates the month starts between the
two bounds, inclusive. -/
def monthBoundaries (s e : Timestamp) : List Timestamp :=
  if monthIdx s ≤ monthEndIdx e then
    (List.range (monthEndIdx e - monthIdx s + 1)).map
      (fun i => ofMonthIdx (monthIdx s + i))
  else []

/-- Linear quarter index of the adjusted end bound of the `"quarter"`
branch: `end_time + pd.DateOffset(months=3)` advances the linear quarter
index by one. -/
def quarterEndIdx (e : Timestamp) : Nat :=
  if e ≠ (⟨e.year, quarterStartMonth e.month, 1, 0⟩ : Timestamp) then qIdx e + 1
  else qIdx e

/-- The `"quarter"` branch of `get_partitioning_boundaries`:
`pd.date_range(..., freq="QS")` enumerates the quarter starts between the
two bounds, inclusive. -/
def quarterBoundaries (s e : Timestamp) : List Timestamp :=
  if qIdx s ≤ quarterEndIdx e then
    (List.range (quarterEndIdx e - qIdx s + 1)).map (fun i => ofQIdx (qIdx s + i))
  else []

/-- `pd.date_range(t, endB, freq="D")` for `t` at midnight: every day start
from `t` up to `endB`, inclusive.  Structural recursion on `fuel`; the fuel
passed by `dayBoundaries` exceeds the number of generated days. -/
def dayRangeAux : Nat → Timestamp → Timestamp → List Timestamp
  | 0, _, _ => []
  | fuel + 1, t, endB => if endB < t then [] else t :: dayRangeAux fuel (succDay t) endB

/-- Adjusted end bound of the `"day"` branch: `end_time` is pushed to the
next midnight unless it already is one. -/
def dayEndBound (e : Timestamp) : Timestamp :=
  if e ≠ e.normalize then succDay e.normalize else e

/-- The `"day"` branch of `get_partitioning_boundaries`:
`pd.date_range(..., freq="D")` from the midnight of `start_time`'s day up to
the adjusted end bound. -/
def dayBoundaries (s e : Timestamp) : List Timestamp :=
  dayRangeAux (366 * ((dayEndBound e).year + 2)) ⟨s.year, s.month, s.day, 0⟩
    (dayEndBound e)

/-- `get_partitioning_boundaries` (routines.py lines 387-446). -/
def get_partitioning_boundaries (s e : Timestamp) (tp : String) :
    Except PyError (List Timestamp) :=
  if tp = "year" then .ok (yearBoundaries s e)
  else if tp = "month" then .ok (monthBoundaries s e)
  else if tp = "quarter" then .ok (quarterBoundaries s e)
  else if tp = "day" then .ok (dayBoundaries s e)
  else .error (.notImplementedError "Invalid temporal_partitioning")

/-- A group period `(time_prefix, group_start, group_end)` as produced by
`get_list_group_periods`. -/
abbrev GroupPeriod := String × Timestamp × Timestamp

/-- One iteration of the loop of `get_list_group_periods`: clamp the group
boundaries to `[start_time, end_time)`, build the time label from the
clamped group start, and keep the group only when it is non-empty. -/
def clampGroup (tp : String) (gs ge s e : Timestamp) :
    Except PyError (Option GroupPeriod) := do
  let gs := pymax gs s
  let ge := pymin ge e
  let pfx ← get_time_prefix_fn gs tp
  if gs < ge then pure (some (pfx, gs, ge)) else pure none

/-- The loop of `get_list_group_periods` over `enumerate(boundaries)`: for
every boundary, the group end is the following boundary, except for the last
boundary whose group end is `end_time`. -/
def groupsOfBoundaries (tp : String) (s e : Timestamp) :
    List Timestamp → Except PyError (List GroupPeriod)
  | [] => pure []
  | [b] => do
    let w ← clampGroup tp b e s e
    pure w.toList
  | b :: b' :: rest => do
    let w ← clampGroup tp b b' s e
    let ws ← groupsOfBoundaries tp s e (b' :: rest)
    pure (w.toList ++ ws)

/-- `get_list_group_periods` (routines.py lines 449-471). -/
def get_list_group_periods (s e : Timestamp) (tp : String) :
    Except PyError (List GroupPeriod) := do
  let bs ← get_partitioning_boundaries s e tp
  groupsOfBoundaries tp s e bs

/-- C9: with granularity `"month"`, grouping `2021-01-15 → 2021-03-10`
yields exactly three windows; the first window's start is clamped to
`2021-01-15` (not pushed back to `2021-01-01`), the last window's end is
clamped to `2021-03-10`, and the intermediate boundaries fall on the first
of February and the first of March. -/
theorem month_grouping_partial_months :
    get_list_group_periods ⟨2021, 1, 15, 0⟩ ⟨2021, 3, 10, 0⟩ "month" =
      .ok [("2021_1", ⟨2021, 1, 15, 0⟩, ⟨2021, 2, 1, 0⟩),
           ("2021_2", ⟨2021, 2, 1, 0⟩, ⟨2021, 3, 1, 0⟩),
           ("2021_3", ⟨2021, 3, 1, 0⟩, ⟨2021, 3, 10, 0⟩)] := rfl

/-! ### Order facts about timestamps and the window chain predicate -/

theorem Timestamp.key_inj {a b : Timestamp} (ha : a.Valid) (hb : b.Valid)
    (h : key a = key b) : a = b := by
  obtain ⟨a1, a2, a3, a4, a5⟩ := ha
  obtain ⟨b1, b2, b3, b4, b5⟩ := hb
  have ha31 : a.day ≤ 31 := le_trans a4 daysInMonth_le
  have hb31 : b.day ≤ 31 := le_trans b4 daysInMonth_le
  simp only [todBound] at a5 b5
  simp only [Timestamp.key, todBound] at h
  obtain ⟨ya, ma, da, ta⟩ := a
  obtain ⟨yb, mb, db, tb⟩ := b
  simp only at *
  have : ya = yb ∧ ma = mb ∧ da = db ∧ ta = tb := by omega
  simp [this.1, this.2.1, this.2.2.1, this.2.2.2]

theorem pymax_eq_right {b s : Timestamp} (hb : b.Valid) (hs : s.Valid)
    (h : b ≤ s) : pymax b s = s := by
  unfold pymax
  split
  · rfl
  · rename_i hns
    rw [Timestamp.le_def] at h
    rw [Timestamp.lt_def] at hns
    exact Timestamp.key_inj hb hs (by omega)

theorem le_pymax_right (b s : Timestamp) : s ≤ pymax b s := by
  unfold pymax
  split
  · exact Nat.le.refl
  · rename_i h
    rw [Timestamp.lt_def] at h
    rw [Timestamp.le_def]
    omega

theorem le_pymax_left (b s : Timestamp) : b ≤ pymax b s := by
  unfold pymax
  split
  · rename_i h
    rw [Timestamp.lt_def] at h
    rw [Timestamp.le_def]
    omega
  · exact Nat.le.refl

/-- `WindowChain s e L`: the list `L` is a gapless chain of non-empty
half-open windows `[w.2.1, w.2.2)` starting exactly at `s` and ending
exactly at `e` (for the empty list this forces `s = e`). -/
def WindowChain : Timestamp → Timestamp → List GroupPeriod → Prop
  | s, e, [] => s = e
  | s, e, w :: rest => w.2.1 = s ∧ s < w.2.2 ∧ WindowChain w.2.2 e rest

instance WindowChain.dec : (s e : Timestamp) → (L : List GroupPeriod) →
    Decidable (WindowChain s e L)
  | s, e, [] => inferInstanceAs (Decidable (s = e))
  | s, e, w :: rest =>
    have : Decidable (WindowChain w.2.2 e rest) := WindowChain.dec _ _ _
    inferInstanceAs (Decidable (w.2.1 = s ∧ s < w.2.2 ∧ WindowChain w.2.2 e rest))

theorem WindowChain.le {s e : Timestamp} {L : List GroupPeriod}
    (h : WindowChain s e L) : s ≤ e := by
  induction L generalizing s with
  | nil => rw [show s = e from h]; rw [Timestamp.le_def]
  | cons w rest ih =>
    obtain ⟨-, h2, h3⟩ := h
    have := ih h3
    rw [Timestamp.le_def] at *
    rw [Timestamp.lt_def] at h2
    omega

theorem WindowChain.windows_bounded {s e : Timestamp} {L : List GroupPeriod}
    (h : WindowChain s e L) :
    ∀ w ∈ L, s ≤ w.2.1 ∧ w.2.1 < w.2.2 ∧ w.2.2 ≤ e := by
  induction L generalizing s with
  | nil => intro w hw; simp at hw
  | cons w0 rest ih =>
    intro w hw
    obtain ⟨h1, h2, h3⟩ := h
    rcases List.mem_cons.mp hw with rfl | hw
    · exact ⟨by rw [h1]; rw [Timestamp.le_def], by rw [h1]; exact h2, h3.le⟩
    · have := ih h3 w hw
      refine ⟨?_, this.2.1, this.2.2⟩
      have hle := this.1
      rw [Timestamp.le_def] at *
      rw [Timestamp.lt_def] at h2
      omega

theorem WindowChain.pairwise_sep {s e : Timestamp} {L : List GroupPeriod}
    (h : WindowChain s e L) :
    L.Pairwise (fun w w' => w.2.2 ≤ w'.2.1) := by
  induction L generalizing s with
  | nil => exact List.Pairwise.nil
  | cons w0 rest ih =>
    obtain ⟨h1, h2, h3⟩ := h
    exact List.Pairwise.cons (fun w' hw' => (h3.windows_bounded w' hw').1) (ih h3)

theorem WindowChain.contiguous {s e : Timestamp} {L : List GroupPeriod}
    (h : WindowChain s e L) :
    L.Chain' (fun w w' => w.2.2 = w'.2.1) := by
  induction L generalizing s with
  | nil => exact List.chain'_nil
  | cons w0 rest ih =>
    obtain ⟨h1, h2, h3⟩ := h
    rcases rest with _ | ⟨w1, rest'⟩
    · exact List.chain'_singleton w0
    · exact List.Chain'.cons (h3.1.symm) (ih h3)

theorem WindowChain.nonempty_windows {s e : Timestamp} {L : List GroupPeriod}
    (h : WindowChain s e L) : ∀ w ∈ L, w.2.1 < w.2.2 :=
  fun w hw => (h.windows_bounded w hw).2.1

theorem WindowChain.disjoint {s e : Timestamp} {L : List GroupPeriod}
    (h : WindowChain s e L) :
    L.Pairwise (fun w w' =>
      ∀ t, ¬(w.2.1 ≤ t ∧ t < w.2.2 ∧ w'.2.1 ≤ t ∧ t < w'.2.2)) := by
  refine (h.pairwise_sep).imp ?_
  intro w w' hsep t ⟨_, h2, h3, _⟩
  rw [Timestamp.le_def] at hsep h3
  rw [Timestamp.lt_def] at h2
  omega

theorem WindowChain.cover {s e : Timestamp} {L : List GroupPeriod}
    (h : WindowChain s e L) :
    ∀ t, (s ≤ t ∧ t < e) ↔ ∃ w ∈ L, w.2.1 ≤ t ∧ t < w.2.2 := by
  induction L generalizing s with
  | nil =>
    intro t
    rw [show s = e from h]
    simp only [List.not_mem_nil, false_and, exists_false, iff_false, not_and]
    intro h1 h2
    rw [Timestamp.le_def] at h1
    rw [Timestamp.lt_def] at h2
    omega
  | cons w0 rest ih =>
    intro t
    obtain ⟨h1, h2, h3⟩ := h
    have hcov := ih h3 t
    constructor
    · rintro ⟨hst, hte⟩
      by_cases hc : t < w0.2.2
      · exact ⟨w0, List.mem_cons_self _ _, by rw [h1]; exact hst, hc⟩
      · have : w0.2.2 ≤ t := by
          rw [Timestamp.lt_def] at hc
          rw [Timestamp.le_def]
          omega
        obtain ⟨w, hw, hw2⟩ := hcov.mp ⟨this, hte⟩
        exact ⟨w, List.mem_cons_of_mem _ hw, hw2⟩
    · rintro ⟨w, hw, hwt1, hwt2⟩
      rcases List.mem_cons.mp hw with rfl | hw
      · have hbd := h3.le
        rw [h1] at hwt1
        refine ⟨hwt1, ?_⟩
        rw [Timestamp.le_def] at hbd
        rw [Timestamp.lt_def] at hwt2 ⊢
        omega
      · have := hcov.mpr ⟨w, hw, hwt1, hwt2⟩
        refine ⟨?_, this.2⟩
        have := this.1
        rw [Timestamp.le_def] at this ⊢
        rw [Timestamp.lt_def] at h2
        omega

theorem pymin_self (e : Timestamp) : pymin e e = e := by
  unfold pymin; split <;> rfl

theorem except_bind_ok {α β : Type} (a : α) (f : α → Except PyError β) :
    (Except.ok a >>= f) = f a := rfl

theorem pymax_le_pymax {b b' : Timestamp} (s : Timestamp) (h : b ≤ b') :
    pymax b s ≤ pymax b' s := by
  by_cases hbs : b < s
  · have hb : pymax b s = s := by unfold pymax; rw [if_pos hbs]
    rw [hb]
    exact le_pymax_right b' s
  · have hb : pymax b s = b := by unfold pymax; rw [if_neg hbs]
    rw [hb]
    have h2 := le_pymax_left b' s
    rw [Timestamp.le_def] at h h2 ⊢
    omega

theorem clampGroup_eq (tp : String) (gs ge s e : Timestamp) (p : String)
    (hp : get_time_prefix_fn (pymax gs s) tp = .ok p) :
    clampGroup tp gs ge s e =
      .ok (if pymax gs s < pymin ge e then some (p, pymax gs s, pymin ge e)
           else none) := by
  show (get_time_prefix_fn (pymax gs s) tp >>= fun pfx =>
    if pymax gs s < pymin ge e then pure (some (pfx, pymax gs s, pymin ge e))
    else pure none) = _
  rw [hp, except_bind_ok]
  split <;> rfl

theorem groupsOfBoundaries_spec (tp : String) (s e : Timestamp)
    (hsV : s.Valid) (heV : e.Valid)
    (hpfx : ∀ t : Timestamp, ∃ p, get_time_prefix_fn t tp = .ok p) :
    ∀ rest b, (∀ t ∈ b :: rest, Timestamp.Valid t) →
      List.Chain' (· < ·) (b :: rest) →
      ∃ L, groupsOfBoundaries tp s e (b :: rest) = .ok L ∧
        (pymax b s < e → WindowChain (pymax b s) e L) ∧
        (¬pymax b s < e → L = []) ∧
        (∀ w ∈ L, (w.2.1 = pymax b s ∨ w.2.1 ∈ b :: rest) ∧
          get_time_prefix_fn w.2.1 tp = .ok w.1) := by
  intro rest
  induction rest with
  | nil =>
    intro b _ _
    obtain ⟨p, hp⟩ := hpfx (pymax b s)
    have heq : groupsOfBoundaries tp s e [b] =
        .ok (if pymax b s < e then [(p, pymax b s, e)] else []) := by
      show (clampGroup tp b e s e >>= fun w => pure w.toList) = _
      rw [clampGroup_eq tp b e s e p hp, except_bind_ok, pymin_self]
      split <;> rfl
    by_cases hlt : pymax b s < e
    · refine ⟨[(p, pymax b s, e)], by rw [heq, if_pos hlt], fun _ => ⟨rfl, hlt, rfl⟩,
        fun hn => absurd hlt hn, ?_⟩
      intro w hw
      rcases List.mem_cons.mp hw with rfl | hw
      · exact ⟨Or.inl rfl, hp⟩
      · simp at hw
    · exact ⟨[], by rw [heq, if_neg hlt], fun hlt' => absurd hlt' hlt,
        fun _ => rfl, by intro w hw; simp at hw⟩
  | cons b' rest' ih =>
    intro b hV hch
    have hbb' : b < b' := (List.chain'_cons.mp hch).1
    have hch' : List.Chain' (· < ·) (b' :: rest') := (List.chain'_cons.mp hch).2
    have hV' : ∀ t ∈ b' :: rest', Timestamp.Valid t :=
      fun t ht => hV t (List.mem_cons_of_mem _ ht)
    have hbV : b.Valid := hV b (List.mem_cons_self _ _)
    have hb'V : b'.Valid := hV b' (List.mem_cons_of_mem _ (List.mem_cons_self _ _))
    obtain ⟨L', hL', hc1, hc2, hmem⟩ := ih b' hV' hch'
    obtain ⟨p, hp⟩ := hpfx (pymax b s)
    have heq : ∀ w : Option GroupPeriod, clampGroup tp b b' s e = .ok w →
        groupsOfBoundaries tp s e (b :: b' :: rest') = .ok (w.toList ++ L') := by
      intro w hw
      show (clampGroup tp b b' s e >>= fun w =>
        groupsOfBoundaries tp s e (b' :: rest') >>= fun ws => pure (w.toList ++ ws)) = _
      rw [hw, except_bind_ok, hL', except_bind_ok]
      rfl
    have hclamp := clampGroup_eq tp b b' s e p hp
    -- abbreviations for the two candidate window starts
    have hs0_s : s ≤ pymax b s := le_pymax_right b s
    have hs0'_b' : b' ≤ pymax b' s := le_pymax_left b' s
    by_cases he0 : pymax b s < e
    · by_cases hw : pymax b s < pymin b' e
      · -- the first window is kept
        rw [if_pos hw] at hclamp
        by_cases hb'e : e < b'
        · -- clamped group end is `e`; all later windows vanish
          have hmin : pymin b' e = e := by unfold pymin; rw [if_pos hb'e]
          rw [hmin] at hclamp hw
          have hL'nil : L' = [] := by
            refine hc2 ?_
            rw [Timestamp.lt_def] at hb'e ⊢
            rw [Timestamp.le_def] at hs0'_b'
            omega
          refine ⟨_, heq _ hclamp, fun _ => ?_, fun hn => absurd he0 hn, ?_⟩
          · rw [hL'nil]
            exact ⟨rfl, hw, rfl⟩
          · intro w hwm
            rw [hL'nil] at hwm
            rcases List.mem_cons.mp hwm with rfl | hwm
            · exact ⟨Or.inl rfl, hp⟩
            · simp at hwm
        · -- clamped group end is `b'`
          have hmin : pymin b' e = b' := by unfold pymin; rw [if_neg hb'e]
          rw [hmin] at hclamp hw
          have hs0' : pymax b' s = b' := by
            unfold pymax
            have h1 : s ≤ pymax b s := hs0_s
            rw [Timestamp.le_def] at h1
            rw [Timestamp.lt_def] at hw
            rw [if_neg (by rw [Timestamp.lt_def]; omega)]
          by_cases hb'e2 : b' < e
          · -- the tail chain continues from `b'`
            have hchain' := hc1 (by rw [hs0']; exact hb'e2)
            rw [hs0'] at hchain'
            refine ⟨_, heq _ hclamp, fun _ => ⟨rfl, hw, hchain'⟩,
              fun hn => absurd he0 hn, ?_⟩
            intro w hwm
            rcases List.mem_cons.mp hwm with rfl | hwm
            · exact ⟨Or.inl rfl, hp⟩
            · have := hmem w hwm
              refine ⟨?_, this.2⟩
              rcases this.1 with h | h
              · rw [hs0'] at h
                exact Or.inr (by rw [h]; exact List.mem_cons_of_mem _ (List.mem_cons_self _ _))
              · exact Or.inr (List.mem_cons_of_mem _ h)
          · -- `key b' = key e`, hence `b' = e` and all later windows vanish
            have hb'eq : b' = e := by
              refine Timestamp.key_inj hb'V heV ?_
              rw [Timestamp.lt_def] at hb'e hb'e2
              omega
            have hL'nil : L' = [] := by
              refine hc2 ?_
              rw [hs0', hb'eq]
              rw [Timestamp.lt_def]
              omega
            refine ⟨_, heq _ hclamp, fun _ => ?_, fun hn => absurd he0 hn, ?_⟩
            · rw [hL'nil]
              exact ⟨rfl, hw, hb'eq⟩
            · intro w hwm
              rw [hL'nil] at hwm
              rcases List.mem_cons.mp hwm with rfl | hwm
              · exact ⟨Or.inl rfl, hp⟩
              · simp at hwm
      · -- the first window is dropped; the tail starts again at `pymax b s`
        rw [if_neg hw] at hclamp
        have hs0eq : pymax b' s = pymax b s := by
          -- from `¬ pymax b s < pymin b' e` and `pymax b s < e`: `b' ≤ pymax b s`
          have hminle : ¬ e < b' := by
            intro hc
            have : pymin b' e = e := by unfold pymin; rw [if_pos hc]
            rw [this] at hw
            exact hw he0
          have hmin : pymin b' e = b' := by unfold pymin; rw [if_neg hminle]
          rw [hmin] at hw
          -- `key b' ≤ key (pymax b s)`; since `key b < key b'`, `pymax b s = s`
          have hbs : b < s := by
            by_contra hns
            have : pymax b s = b := by unfold pymax; rw [if_neg hns]
            rw [this] at hw
            rw [Timestamp.lt_def] at hbb' hw
            exact hw (by omega)
          have hps : pymax b s = s := by unfold pymax; rw [if_pos hbs]
          rw [hps] at hw ⊢
          unfold pymax
          split
          · rfl
          · rename_i hns
            refine Timestamp.key_inj hb'V hsV ?_
            rw [Timestamp.lt_def] at hw hns
            omega
        rw [hs0eq] at hc1 hc2 hmem
        refine ⟨L', heq _ hclamp, fun h => hc1 h, fun hn => hc2 hn, ?_⟩
        intro w hwm
        have := hmem w hwm
        refine ⟨?_, this.2⟩
        rcases this.1 with h | h
        · exact Or.inl h
        · exact Or.inr (List.mem_cons_of_mem _ h)
    · -- everything at or past `e`: no window survives
      have hwdrop : ¬ pymax b s < pymin b' e := by
        intro hc
        refine he0 ?_
        have : pymin b' e ≤ e := by
          unfold pymin
          split
          · exact Nat.le.refl
          · rename_i hns
            rw [Timestamp.lt_def] at hns
            rw [Timestamp.le_def]
            omega
        rw [Timestamp.lt_def] at hc ⊢
        rw [Timestamp.le_def] at this
        omega
      rw [if_neg hwdrop] at hclamp
      have hL'nil : L' = [] := by
        refine hc2 ?_
        have h1 : pymax b s ≤ pymax b' s := by
          refine pymax_le_pymax s ?_
          rw [Timestamp.lt_def] at hbb'
          rw [Timestamp.le_def]
          omega
        intro hc
        refine he0 ?_
        rw [Timestamp.lt_def] at hc ⊢
        rw [Timestamp.le_def] at h1
        omega
      refine ⟨L', heq _ hclamp, fun h => absurd h he0, fun _ => hL'nil, ?_⟩
      intro w hwm
      rw [hL'nil] at hwm
      simp at hwm

/-! ### Shape of the boundary lists produced by each granularity -/

/-- The boundary produced for granularity `tp` lies at the natural start of
its unit (year / month / quarter / day). -/
def IsUnitStart (tp : String) (t : Timestamp) : Prop :=
  (tp = "year" → t.month = 1 ∧ t.day = 1 ∧ t.tod = 0) ∧
  (tp = "month" → t.day = 1 ∧ t.tod = 0) ∧
  (tp = "quarter" → t.day = 1 ∧ t.tod = 0 ∧ (t.month - 1) % 3 = 0) ∧
  (tp = "day" → t.tod = 0)

theorem valid_mk {y m d tod : Nat} (h1 : 1 ≤ m) (h2 : m ≤ 12) (h3 : 1 ≤ d)
    (h4 : d ≤ daysInMonth y m) (h5 : tod < todBound) :
    Timestamp.Valid ⟨y, m, d, tod⟩ := ⟨h1, h2, h3, h4, h5⟩

theorem mapRange_boundary_facts (f : Nat → Timestamp) (n : Nat)
    (hmono : ∀ i, f i < f (i + 1)) :
    (List.range (n + 1)).map f = f 0 :: (List.range n).map (fun i => f (i + 1)) ∧
      List.Chain' (· < ·) ((List.range (n + 1)).map f) ∧
      ∀ t ∈ (List.range (n + 1)).map f, ∃ i, t = f i := by
  refine ⟨?_, ?_, ?_⟩
  · rw [List.range_succ_eq_map, List.map_cons, List.map_map]
    rfl
  · rw [List.chain'_map]
    exact (List.chain'_range_succ _ n).mpr (fun m _ => hmono m)
  · intro t ht
    obtain ⟨i, -, hi⟩ := List.mem_map.mp ht
    exact ⟨i, hi.symm⟩

theorem yearBoundaries_spec (s e : Timestamp) (hs : s.Valid) (he : e.Valid)
    (hse : s ≤ e) :
    ∃ rest, yearBoundaries s e = yearStartTs s.year :: rest ∧
      yearStartTs s.year ≤ s ∧
      List.Chain' (· < ·) (yearStartTs s.year :: rest) ∧
      ∀ t ∈ yearStartTs s.year :: rest, t.Valid ∧ IsUnitStart "year" t := by
  obtain ⟨s1, s2, s3, s4, s5⟩ := hs
  obtain ⟨e1, e2, e3, e4, e5⟩ := he
  have hs31 : s.day ≤ 31 := le_trans s4 daysInMonth_le
  have he31 : e.day ≤ 31 := le_trans e4 daysInMonth_le
  have hkey := hse
  rw [Timestamp.le_def] at hkey
  simp only [Timestamp.key, todBound] at hkey
  simp only [todBound] at s5 e5
  have hyy : s.year ≤ e.year := by omega
  have hend : s.year ≤ yearEndBound e := by
    unfold yearEndBound; split <;> omega
  obtain ⟨hcons, hchain, hmem⟩ := mapRange_boundary_facts
    (fun i => yearStartTs (s.year + i)) (yearEndBound e - s.year)
    (by
      intro i
      rw [Timestamp.lt_def]
      simp only [yearStartTs, Timestamp.key, todBound]
      omega)
  have hlist : yearBoundaries s e =
      (List.range (yearEndBound e - s.year + 1)).map (fun i => yearStartTs (s.year + i)) := by
    unfold yearBoundaries
    rw [if_pos hend]
  have hshape : yearBoundaries s e =
      yearStartTs s.year ::
        (List.range (yearEndBound e - s.year)).map (fun i => yearStartTs (s.year + (i + 1))) := by
    rw [hlist, hcons]
    simp only [Nat.add_zero]
  refine ⟨_, hshape, ?_, ?_, ?_⟩
  · rw [Timestamp.le_def]
    simp only [yearStartTs, Timestamp.key, todBound]
    omega
  · rw [← hshape, hlist]
    exact hchain
  · intro t ht
    rw [← hshape, hlist] at ht
    obtain ⟨i, rfl⟩ := hmem t ht
    refine ⟨valid_mk (by omega) (by omega) (by omega)
      (daysInMonth_pos (by omega) (by omega)) (by simp [todBound]), ?_⟩
    exact ⟨fun _ => ⟨rfl, rfl, rfl⟩, fun h => by simp at h, fun h => by simp at h,
      fun h => by simp at h⟩

theorem monthBoundaries_spec (s e : Timestamp) (hs : s.Valid) (he : e.Valid)
    (hse : s ≤ e) :
    ∃ rest, monthBoundaries s e = ofMonthIdx (monthIdx s) :: rest ∧
      ofMonthIdx (monthIdx s) ≤ s ∧
      List.Chain' (· < ·) (ofMonthIdx (monthIdx s) :: rest) ∧
      ∀ t ∈ ofMonthIdx (monthIdx s) :: rest, t.Valid ∧ IsUnitStart "month" t := by
  obtain ⟨s1, s2, s3, s4, s5⟩ := hs
  obtain ⟨e1, e2, e3, e4, e5⟩ := he
  have hs31 : s.day ≤ 31 := le_trans s4 daysInMonth_le
  have he31 : e.day ≤ 31 := le_trans e4 daysInMonth_le
  have hkey := hse
  rw [Timestamp.le_def] at hkey
  simp only [Timestamp.key, todBound] at hkey
  simp only [todBound] at s5 e5
  have hend : monthIdx s ≤ monthEndIdx e := by
    unfold monthEndIdx monthIdx; split <;> omega
  obtain ⟨hcons, hchain, hmem⟩ := mapRange_boundary_facts
    (fun i => ofMonthIdx (monthIdx s + i)) (monthEndIdx e - monthIdx s)
    (by
      intro i
      rw [Timestamp.lt_def]
      simp only [ofMonthIdx, Timestamp.key, todBound]
      omega)
  have hlist : monthBoundaries s e =
      (List.range (monthEndIdx e - monthIdx s + 1)).map
        (fun i => ofMonthIdx (monthIdx s + i)) := by
    unfold monthBoundaries
    rw [if_pos hend]
  have hshape : monthBoundaries s e =
      ofMonthIdx (monthIdx s) ::
        (List.range (monthEndIdx e - monthIdx s)).map
          (fun i => ofMonthIdx (monthIdx s + (i + 1))) := by
    rw [hlist, hcons]
    simp only [Nat.add_zero]
  refine ⟨_, hshape, ?_, ?_, ?_⟩
  · rw [Timestamp.le_def]
    simp only [ofMonthIdx, monthIdx, Timestamp.key, todBound]
    omega
  · rw [← hshape, hlist]
    exact hchain
  · intro t ht
    rw [← hshape, hlist] at ht
    obtain ⟨i, rfl⟩ := hmem t ht
    refine ⟨valid_mk (by omega) (by omega) (by omega)
      (daysInMonth_pos (by omega) (by omega)) (by simp [todBound]), ?_⟩
    exact ⟨fun h => by simp at h, fun _ => ⟨rfl, rfl⟩, fun h => by simp at h,
      fun h => by simp at h⟩

theorem quarterBoundaries_spec (s e : Timestamp) (hs : s.Valid) (he : e.Valid)
    (hse : s ≤ e) :
    ∃ rest, quarterBoundaries s e = ofQIdx (qIdx s) :: rest ∧
      ofQIdx (qIdx s) ≤ s ∧
      List.Chain' (· < ·) (ofQIdx (qIdx s) :: rest) ∧
      ∀ t ∈ ofQIdx (qIdx s) :: rest, t.Valid ∧ IsUnitStart "quarter" t := by
  obtain ⟨s1, s2, s3, s4, s5⟩ := hs
  obtain ⟨e1, e2, e3, e4, e5⟩ := he
  have hs31 : s.day ≤ 31 := le_trans s4 daysInMonth_le
  have he31 : e.day ≤ 31 := le_trans e4 daysInMonth_le
  have hkey := hse
  rw [Timestamp.le_def] at hkey
  simp only [Timestamp.key, todBound] at hkey
  simp only [todBound] at s5 e5
  have hend : qIdx s ≤ quarterEndIdx e := by
    unfold quarterEndIdx qIdx; split <;> omega
  obtain ⟨hcons, hchain, hmem⟩ := mapRange_boundary_facts
    (fun i => ofQIdx (qIdx s + i)) (quarterEndIdx e - qIdx s)
    (by
      intro i
      rw [Timestamp.lt_def]
      simp only [ofQIdx, Timestamp.key, todBound]
      omega)
  have hlist : quarterBoundaries s e =
      (List.range (quarterEndIdx e - qIdx s + 1)).map (fun i => ofQIdx (qIdx s + i)) := by
    unfold quarterBoundaries
    rw [if_pos hend]
  have hshape : quarterBoundaries s e =
      ofQIdx (qIdx s) ::
        (List.range (quarterEndIdx e - qIdx s)).map
          (fun i => ofQIdx (qIdx s + (i + 1))) := by
    rw [hlist, hcons]
    simp only [Nat.add_zero]
  refine ⟨_, hshape, ?_, ?_, ?_⟩
  · rw [Timestamp.le_def]
    simp only [ofQIdx, qIdx, Timestamp.key, todBound]
    omega
  · rw [← hshape, hlist]
    exact hchain
  · intro t ht
    rw [← hshape, hlist] at ht
    obtain ⟨i, rfl⟩ := hmem t ht
    refine ⟨valid_mk (by omega) (by omega) (by omega)
      (daysInMonth_pos (by omega) (by omega)) (by simp [todBound]), ?_⟩
    refine ⟨fun h => by simp at h, fun h => by simp at h,
      fun _ => ⟨rfl, rfl, ?_⟩, fun h => by simp at h⟩
    show ((qIdx s + i) % 4 * 3 + 1 - 1) % 3 = 0
    omega

theorem succDay_tod (t : Timestamp) : (succDay t).tod = 0 := by
  unfold succDay
  split
  · rfl
  · split <;> rfl

theorem normalize_valid {t : Timestamp} (h : t.Valid) : t.normalize.Valid :=
  ⟨h.1, h.2.1, h.2.2.1, h.2.2.2.1, show (0:Nat) < todBound by unfold todBound; omega⟩

theorem lt_succDay_of_fields {t u : Timestamp} (hu : u.Valid)
    (hy : u.year = t.year) (hm : u.month = t.month) (hd : u.day = t.day)
    (htod : t.tod < todBound) : t < succDay u := by
  obtain ⟨u1, u2, u3, u4, u5⟩ := hu
  have hu31 : u.day ≤ 31 := le_trans u4 daysInMonth_le
  rw [Timestamp.lt_def]
  simp only [todBound] at htod
  unfold succDay
  split
  · simp only [Timestamp.key, todBound]; omega
  · split
    · simp only [Timestamp.key, todBound]; omega
    · simp only [Timestamp.key, todBound]; omega

theorem le_dayEndBound {e : Timestamp} (he : e.Valid) : e ≤ dayEndBound e := by
  unfold dayEndBound
  split
  · have h := lt_succDay_of_fields (t := e) (u := e.normalize)
      (normalize_valid he) rfl rfl rfl he.2.2.2.2
    rw [Timestamp.lt_def] at h
    rw [Timestamp.le_def]
    omega
  · exact Nat.le.refl

theorem dayRangeAux_head : ∀ (fuel : Nat) (t endB u : Timestamp),
    (dayRangeAux fuel t endB).head? = some u → u = t := by
  intro fuel t endB u h
  match fuel with
  | 0 => simp [dayRangeAux] at h
  | k + 1 =>
    unfold dayRangeAux at h
    by_cases hc : endB < t
    · rw [if_pos hc] at h
      simp at h
    · rw [if_neg hc] at h
      simp at h
      exact h.symm

theorem dayRangeAux_facts : ∀ (fuel : Nat) (t endB : Timestamp),
    t.Valid → t.tod = 0 →
    List.Chain' (· < ·) (dayRangeAux fuel t endB) ∧
      ∀ u ∈ dayRangeAux fuel t endB, u.Valid ∧ u.tod = 0 := by
  intro fuel
  induction fuel with
  | zero =>
    intro t endB _ _
    exact ⟨List.chain'_nil, by intro u hu; simp [dayRangeAux] at hu⟩
  | succ k ih =>
    intro t endB hV htod
    unfold dayRangeAux
    by_cases hc : endB < t
    · rw [if_pos hc]
      exact ⟨List.chain'_nil, by intro u hu; simp at hu⟩
    · rw [if_neg hc]
      obtain ⟨hch, hmem⟩ := ih (succDay t) endB (succDay_valid hV) (succDay_tod t)
      refine ⟨?_, ?_⟩
      · rw [List.chain'_cons']
        refine ⟨?_, hch⟩
        intro y hy
        rw [dayRangeAux_head k (succDay t) endB y hy]
        exact succDay_lt hV
      · intro u hu
        rcases List.mem_cons.mp hu with rfl | hu
        · exact ⟨hV, htod⟩
        · exact hmem u hu

theorem dayBoundaries_spec (s e : Timestamp) (hs : s.Valid) (he : e.Valid)
    (hse : s ≤ e) :
    ∃ rest, dayBoundaries s e = (⟨s.year, s.month, s.day, 0⟩ : Timestamp) :: rest ∧
      (⟨s.year, s.month, s.day, 0⟩ : Timestamp) ≤ s ∧
      List.Chain' (· < ·) ((⟨s.year, s.month, s.day, 0⟩ : Timestamp) :: rest) ∧
      ∀ t ∈ (⟨s.year, s.month, s.day, 0⟩ : Timestamp) :: rest,
        t.Valid ∧ IsUnitStart "day" t := by
  have ht0V : Timestamp.Valid ⟨s.year, s.month, s.day, 0⟩ :=
    valid_mk hs.1 hs.2.1 hs.2.2.1 hs.2.2.2.1 (show (0:Nat) < todBound by unfold todBound; omega)
  have ht0s : (⟨s.year, s.month, s.day, 0⟩ : Timestamp) ≤ s := by
    rw [Timestamp.le_def]
    simp only [Timestamp.key, todBound]
    omega
  have heE := le_dayEndBound he
  have hnot : ¬ dayEndBound e < (⟨s.year, s.month, s.day, 0⟩ : Timestamp) := by
    rw [Timestamp.lt_def]
    rw [Timestamp.le_def] at ht0s hse heE
    omega
  obtain ⟨k, hk⟩ : ∃ k, 366 * ((dayEndBound e).year + 2) = k + 1 :=
    ⟨366 * ((dayEndBound e).year + 2) - 1, by omega⟩
  have haux : dayRangeAux (k + 1) ⟨s.year, s.month, s.day, 0⟩ (dayEndBound e) =
      (⟨s.year, s.month, s.day, 0⟩ : Timestamp) ::
        dayRangeAux k (succDay ⟨s.year, s.month, s.day, 0⟩) (dayEndBound e) := by
    show (if dayEndBound e < (⟨s.year, s.month, s.day, 0⟩ : Timestamp) then ([] : List Timestamp)
          else (⟨s.year, s.month, s.day, 0⟩ : Timestamp) ::
            dayRangeAux k (succDay ⟨s.year, s.month, s.day, 0⟩) (dayEndBound e)) = _
    rw [if_neg hnot]
  have hsplit : dayBoundaries s e =
      (⟨s.year, s.month, s.day, 0⟩ : Timestamp) ::
        dayRangeAux k (succDay ⟨s.year, s.month, s.day, 0⟩) (dayEndBound e) := by
    unfold dayBoundaries
    rw [hk, haux]
  obtain ⟨hch, hmem⟩ :=
    dayRangeAux_facts (k + 1) ⟨s.year, s.month, s.day, 0⟩ (dayEndBound e) ht0V rfl
  refine ⟨_, hsplit, ht0s, ?_, ?_⟩
  · rw [← haux]
    exact hch
  · intro t ht
    rw [← haux] at ht
    have := hmem t ht
    exact ⟨this.1, fun h => by simp at h, fun h => by simp at h,
      fun h => by simp at h, fun _ => this.2⟩

theorem boundaries_spec (tp : String) (s e : Timestamp) (hs : s.Valid) (he : e.Valid)
    (hse : s ≤ e)
    (htp : tp = "year" ∨ tp = "month" ∨ tp = "quarter" ∨ tp = "day") :
    ∃ b rest, get_partitioning_boundaries s e tp = .ok (b :: rest) ∧ b ≤ s ∧
      List.Chain' (· < ·) (b :: rest) ∧
      ∀ t ∈ b :: rest, t.Valid ∧ IsUnitStart tp t := by
  rcases htp with rfl | rfl | rfl | rfl
  · obtain ⟨rest, h1, h2, h3, h4⟩ := yearBoundaries_spec s e hs he hse
    refine ⟨_, rest, ?_, h2, h3, h4⟩
    show Except.ok (yearBoundaries s e) = _
    rw [h1]
  · obtain ⟨rest, h1, h2, h3, h4⟩ := monthBoundaries_spec s e hs he hse
    refine ⟨_, rest, ?_, h2, h3, h4⟩
    show Except.ok (monthBoundaries s e) = _
    rw [h1]
  · obtain ⟨rest, h1, h2, h3, h4⟩ := quarterBoundaries_spec s e hs he hse
    refine ⟨_, rest, ?_, h2, h3, h4⟩
    show Except.ok (quarterBoundaries s e) = _
    rw [h1]
  · obtain ⟨rest, h1, h2, h3, h4⟩ := dayBoundaries_spec s e hs he hse
    refine ⟨_, rest, ?_, h2, h3, h4⟩
    show Except.ok (dayBoundaries s e) = _
    rw [h1]

theorem get_time_prefix_ok (tp : String) (t : Timestamp)
    (htp : tp = "year" ∨ tp = "month" ∨ tp = "quarter" ∨ tp = "day") :
    ∃ p, get_time_prefix_fn t tp = .ok p := by
  rcases htp with rfl | rfl | rfl | rfl
  · exact ⟨_, rfl⟩
  · exact ⟨_, rfl⟩
  · exact ⟨_, rfl⟩
  · exact ⟨_, rfl⟩

/-- C1: for valid `start_time ≤ end_time` and each of the four supported
granularities, `get_list_group_periods` succeeds; when `start_time <
end_time` the returned windows form a gapless chain from `start_time` to
`end_time`: they are ordered, pairwise disjoint, contiguous half-open
intervals whose union is exactly `[start_time, end_time)`; when
`start_time = end_time` the returned list is empty. -/
theorem get_list_group_periods_partition (s e : Timestamp) (tp : String)
    (hs : s.Valid) (he : e.Valid)
    (htp : tp = "year" ∨ tp = "month" ∨ tp = "quarter" ∨ tp = "day")
    (hse : s ≤ e) :
    ∃ L, get_list_group_periods s e tp = .ok L ∧
      (s < e →
        WindowChain s e L ∧
        L.Pairwise (fun w w' => w.2.2 ≤ w'.2.1) ∧
        L.Chain' (fun w w' => w.2.2 = w'.2.1) ∧
        (∀ w ∈ L, w.2.1 < w.2.2) ∧
        L.Pairwise (fun w w' =>
          ∀ t, ¬(w.2.1 ≤ t ∧ t < w.2.2 ∧ w'.2.1 ≤ t ∧ t < w'.2.2)) ∧
        (∀ t, (s ≤ t ∧ t < e) ↔ ∃ w ∈ L, w.2.1 ≤ t ∧ t < w.2.2)) ∧
      (s = e → L = []) := by
  obtain ⟨b, rest, hbs, hble, hchain, hval⟩ := boundaries_spec tp s e hs he hse htp
  have hpfx := fun t => get_time_prefix_ok tp t htp
  obtain ⟨L, hL, hc1, hc2, -⟩ :=
    groupsOfBoundaries_spec tp s e hs he hpfx rest b (fun t ht => (hval t ht).1) hchain
  have hmax : pymax b s = s :=
    pymax_eq_right (hval b (List.mem_cons_self _ _)).1 hs hble
  rw [hmax] at hc1 hc2
  refine ⟨L, ?_, ?_, ?_⟩
  · show (get_partitioning_boundaries s e tp >>= fun bs => groupsOfBoundaries tp s e bs) = _
    rw [hbs, except_bind_ok, hL]
  · intro hlt
    have hch := hc1 hlt
    exact ⟨hch, hch.pairwise_sep, hch.contiguous, hch.nonempty_windows,
      hch.disjoint, hch.cover⟩
  · intro heq
    refine hc2 ?_
    rw [heq, Timestamp.lt_def]
    omega

/-- Witness for `get_list_group_periods_partition` at the concrete month
range `2021-01-15 → 2021-03-10`. -/
theorem get_list_group_periods_partition_witness :
    (Timestamp.Valid ⟨2021, 1, 15, 0⟩ ∧ Timestamp.Valid ⟨2021, 3, 10, 0⟩ ∧
      (⟨2021, 1, 15, 0⟩ : Timestamp) ≤ ⟨2021, 3, 10, 0⟩) ∧
    (∃ L, get_list_group_periods ⟨2021, 1, 15, 0⟩ ⟨2021, 3, 10, 0⟩ "month" = .ok L ∧
      ((⟨2021, 1, 15, 0⟩ : Timestamp) < ⟨2021, 3, 10, 0⟩ →
        WindowChain ⟨2021, 1, 15, 0⟩ ⟨2021, 3, 10, 0⟩ L ∧
        L.Pairwise (fun w w' => w.2.2 ≤ w'.2.1) ∧
        L.Chain' (fun w w' => w.2.2 = w'.2.1) ∧
        (∀ w ∈ L, w.2.1 < w.2.2) ∧
        L.Pairwise (fun w w' =>
          ∀ t, ¬(w.2.1 ≤ t ∧ t < w.2.2 ∧ w'.2.1 ≤ t ∧ t < w'.2.2)) ∧
        (∀ t, ((⟨2021, 1, 15, 0⟩ : Timestamp) ≤ t ∧ t < ⟨2021, 3, 10, 0⟩) ↔
          ∃ w ∈ L, w.2.1 ≤ t ∧ t < w.2.2)) ∧
      ((⟨2021, 1, 15, 0⟩ : Timestamp) = ⟨2021, 3, 10, 0⟩ → L = [])) :=
  ⟨⟨by decide, by decide, by decide⟩,
    get_list_group_periods_partition ⟨2021, 1, 15, 0⟩ ⟨2021, 3, 10, 0⟩ "month"
      (by decide) (by decide) (Or.inr (Or.inl rfl)) (by decide)⟩

/-! ### Distinctness of window time labels (and failure of prefix-freeness) -/

theorem underscore_data : ("_" : String).data = ['_'] := rfl

theorem pyNatStr_underscore_inj3 {a b c a' b' c' : Nat}
    (h : pyNatStr a ++ "_" ++ pyNatStr b ++ "_" ++ pyNatStr c =
         pyNatStr a' ++ "_" ++ pyNatStr b' ++ "_" ++ pyNatStr c') :
    a = a' ∧ b = b' ∧ c = c' := by
  have hdata := congrArg String.data h
  simp only [String.data_append, underscore_data, List.append_assoc,
    List.singleton_append] at hdata
  have h1 := append_underscore_inj _ _ _ _ (underscore_not_mem_pyNatStr a)
    (underscore_not_mem_pyNatStr a') hdata
  have h2 := append_underscore_inj _ _ _ _ (underscore_not_mem_pyNatStr b)
    (underscore_not_mem_pyNatStr b') h1.2
  exact ⟨pyNatStr_inj (String.ext h1.1), pyNatStr_inj (String.ext h2.1),
    pyNatStr_inj (String.ext h2.2)⟩

/-- Two valid timestamps `t < t'`, with `t'` at its natural unit start,
always receive distinct time labels from `get_time_prefix`. -/
theorem time_label_ne (tp : String)
    (htp : tp = "year" ∨ tp = "month" ∨ tp = "quarter" ∨ tp = "day")
    {t t' : Timestamp} (ht : t.Valid) (ht' : t'.Valid)
    (hlt : t < t') (hu : IsUnitStart tp t') {p p' : String}
    (hp : get_time_prefix_fn t tp = .ok p)
    (hp' : get_time_prefix_fn t' tp = .ok p') : p ≠ p' := by
  obtain ⟨t1, t2, t3, t4, t5⟩ := ht
  obtain ⟨u1, u2, u3, u4, u5⟩ := ht'
  rw [Timestamp.lt_def] at hlt
  simp only [Timestamp.key] at hlt
  have ht31 : t.day ≤ 31 := le_trans t4 daysInMonth_le
  have hu31 : t'.day ≤ 31 := le_trans u4 daysInMonth_le
  simp only [todBound] at hlt t5 u5
  rcases htp with rfl | rfl | rfl | rfl
  · obtain ⟨hm', hd', htod'⟩ := hu.1 rfl
    have hpv : p = pyNatStr t.year := by
      rw [show get_time_prefix_fn t "year" = .ok (pyNatStr t.year) from rfl] at hp
      injection hp with hp
      exact hp.symm
    have hpv' : p' = pyNatStr t'.year := by
      rw [show get_time_prefix_fn t' "year" = .ok (pyNatStr t'.year) from rfl] at hp'
      injection hp' with hp'
      exact hp'.symm
    intro hcontra
    rw [hpv, hpv'] at hcontra
    have hy := pyNatStr_inj hcontra
    omega
  · obtain ⟨hd', htod'⟩ := hu.2.1 rfl
    have hpv : p = pyNatStr t.year ++ "_" ++ pyNatStr t.month := by
      rw [show get_time_prefix_fn t "month" =
        .ok (pyNatStr t.year ++ "_" ++ pyNatStr t.month) from rfl] at hp
      injection hp with hp
      exact hp.symm
    have hpv' : p' = pyNatStr t'.year ++ "_" ++ pyNatStr t'.month := by
      rw [show get_time_prefix_fn t' "month" =
        .ok (pyNatStr t'.year ++ "_" ++ pyNatStr t'.month) from rfl] at hp'
      injection hp' with hp'
      exact hp'.symm
    intro hcontra
    rw [hpv, hpv'] at hcontra
    obtain ⟨hy, hr⟩ := pyNatStr_underscore_inj hcontra
    have hm := pyNatStr_inj (String.ext (congrArg String.data hr))
    omega
  · obtain ⟨hd', htod', hq3⟩ := hu.2.2.1 rfl
    have hpv : p = pyNatStr t.year ++ "_" ++ pyNatStr ((t.month - 1) / 3 + 1) := by
      rw [show get_time_prefix_fn t "quarter" =
        .ok (pyNatStr t.year ++ "_" ++ pyNatStr ((t.month - 1) / 3 + 1)) from rfl] at hp
      injection hp with hp
      exact hp.symm
    have hpv' : p' = pyNatStr t'.year ++ "_" ++ pyNatStr ((t'.month - 1) / 3 + 1) := by
      rw [show get_time_prefix_fn t' "quarter" =
        .ok (pyNatStr t'.year ++ "_" ++ pyNatStr ((t'.month - 1) / 3 + 1)) from rfl] at hp'
      injection hp' with hp'
      exact hp'.symm
    intro hcontra
    rw [hpv, hpv'] at hcontra
    obtain ⟨hy, hr⟩ := pyNatStr_underscore_inj hcontra
    have hq := pyNatStr_inj (String.ext (congrArg String.data hr))
    omega
  · obtain ⟨htod'⟩ := And.intro (hu.2.2.2 rfl) trivial
    have hpv : p = pyNatStr t.year ++ "_" ++ pyNatStr t.month ++ "_" ++ pyNatStr t.day := by
      rw [show get_time_prefix_fn t "day" =
        .ok (pyNatStr t.year ++ "_" ++ pyNatStr t.month ++ "_" ++ pyNatStr t.day) from rfl] at hp
      injection hp with hp
      exact hp.symm
    have hpv' : p' = pyNatStr t'.year ++ "_" ++ pyNatStr t'.month ++ "_" ++ pyNatStr t'.day := by
      rw [show get_time_prefix_fn t' "day" =
        .ok (pyNatStr t'.year ++ "_" ++ pyNatStr t'.month ++ "_" ++ pyNatStr t'.day) from rfl] at hp'
      injection hp' with hp'
      exact hp'.symm
    intro hcontra
    rw [hpv, hpv'] at hcontra
    obtain ⟨hy, hm, hd⟩ := pyNatStr_underscore_inj3 hcontra
    omega

/-- Python `str.startswith`: the deletion test used by the update branch of
`merge_granule_buckets` (routines.py line 809). -/
def pyStartswith (s pre : String) : Bool := pre.data.isPrefixOf s.data

/-- C3 (amended): for every valid range and every supported granularity,
distinct windows of one compaction run carry pairwise distinct time labels
(the labels are however not prefix-free, see
`window_label_prefix_collision`). -/
theorem window_labels_pairwise_distinct (s e : Timestamp) (tp : String)
    (hs : s.Valid) (he : e.Valid)
    (htp : tp = "year" ∨ tp = "month" ∨ tp = "quarter" ∨ tp = "day")
    (hse : s ≤ e) :
    ∃ L, get_list_group_periods s e tp = .ok L ∧
      L.Pairwise (fun w w' => w.1 ≠ w'.1) := by
  obtain ⟨b, rest, hbs, hble, hchain, hval⟩ := boundaries_spec tp s e hs he hse htp
  have hpfx := fun t => get_time_prefix_ok tp t htp
  obtain ⟨L, hL, hc1, hc2, hmem⟩ :=
    groupsOfBoundaries_spec tp s e hs he hpfx rest b (fun t ht => (hval t ht).1) hchain
  have hmax : pymax b s = s :=
    pymax_eq_right (hval b (List.mem_cons_self _ _)).1 hs hble
  rw [hmax] at hc1 hc2 hmem
  refine ⟨L, ?_, ?_⟩
  · show (get_partitioning_boundaries s e tp >>= fun bs => groupsOfBoundaries tp s e bs) = _
    rw [hbs, except_bind_ok, hL]
  · by_cases hlt : s < e
    · have hch := hc1 hlt
      refine (hch.pairwise_sep).imp_of_mem ?_
      intro w w' hwmem hw'mem hsepw
      have hbw := hch.windows_bounded w hwmem
      have hbw' := hch.windows_bounded w' hw'mem
      have hlt' : w.2.1 < w'.2.1 := by
        have h1 := hbw.2.1
        rw [Timestamp.lt_def] at h1 ⊢
        rw [Timestamp.le_def] at hsepw
        omega
      have hwv : (w.2.1).Valid := by
        rcases (hmem w hwmem).1 with h | h
        · rw [h]; exact hs
        · exact (hval _ h).1
      rcases (hmem w' hw'mem).1 with h | h
      · exfalso
        have h1 := hbw.1
        rw [h] at hlt'
        rw [Timestamp.le_def] at h1
        rw [Timestamp.lt_def] at hlt'
        omega
      · have hv' := hval _ h
        exact time_label_ne tp htp hwv hv'.1 hlt' hv'.2
          (hmem w hwmem).2 (hmem w' hw'mem).2
    · rw [hc2 hlt]
      exact List.Pairwise.nil

/-- Witness for `window_labels_pairwise_distinct` at the concrete month
range `2021-01-01 → 2021-12-01`. -/
theorem window_labels_pairwise_distinct_witness :
    (Timestamp.Valid ⟨2021, 1, 1, 0⟩ ∧ Timestamp.Valid ⟨2021, 12, 1, 0⟩ ∧
      (⟨2021, 1, 1, 0⟩ : Timestamp) ≤ ⟨2021, 12, 1, 0⟩) ∧
    (∃ L, get_list_group_periods ⟨2021, 1, 1, 0⟩ ⟨2021, 12, 1, 0⟩ "month" = .ok L ∧
      L.Pairwise (fun w w' => w.1 ≠ w'.1)) :=
  ⟨⟨by decide, by decide, by decide⟩,
    window_labels_pairwise_distinct ⟨2021, 1, 1, 0⟩ ⟨2021, 12, 1, 0⟩ "month"
      (by decide) (by decide) (Or.inr (Or.inl rfl)) (by decide)⟩

/-- C3 counterexample: in the month run `2021-01-01 → 2021-12-01`, the
window labelled `"2021_1"` and the distinct window labelled `"2021_10"`
violate prefix-freeness — `"2021_1"` is a string prefix of `"2021_10"` — so
the update-mode deletion test `basename.startswith(time_prefix)` for the
`"2021_1"` window also matches a consolidated file `"2021_10_0.parquet"`
belonging to the `"2021_10"` window. -/
theorem window_label_prefix_collision :
    ∃ L, get_list_group_periods ⟨2021, 1, 1, 0⟩ ⟨2021, 12, 1, 0⟩ "month" = .ok L ∧
      ∃ w ∈ L, ∃ w' ∈ L, w ≠ w' ∧ w.1 = "2021_1" ∧ w'.1 = "2021_10" ∧
        w.1.data.IsPrefix w'.1.data ∧
        pyStartswith (w'.1 ++ "_0.parquet") w.1 = true := by
  refine ⟨_, rfl, ?_⟩
  decide

/-! ### C2: the granularity check versus the windowing functions -/

/-- C2 (code bug): `check_temporal_partitioning` validates against
`["year", "month", "season", "quarter"]`: it rejects `"day"` with a
`ValueError` even though both windowing functions implement `"day"` (and
the docstring of `merge_granule_buckets` lists `"day"` as valid), while it
accepts `"season"` for which both windowing functions raise
`NotImplementedError`. -/
theorem check_temporal_partitioning_day_season_mismatch :
    (∃ msg, check_temporal_partitioning "day" = .error (.valueError msg)) ∧
    check_temporal_partitioning "season" = .ok "season" ∧
    (∃ bs, get_partitioning_boundaries ⟨2021, 1, 15, 0⟩ ⟨2021, 1, 17, 0⟩ "day" = .ok bs) ∧
    (∃ p, get_time_prefix_fn ⟨2021, 1, 15, 0⟩ "day" = .ok p) ∧
    (∃ msg, get_time_prefix_fn ⟨2021, 1, 15, 0⟩ "season" =
      .error (.notImplementedError msg)) ∧
    (∃ msg, get_partitioning_boundaries ⟨2021, 1, 15, 0⟩ ⟨2021, 1, 17, 0⟩ "season" =
      .error (.notImplementedError msg)) :=
  ⟨⟨_, rfl⟩, rfl, ⟨_, rfl⟩, ⟨_, rfl⟩, ⟨_, rfl⟩, ⟨_, rfl⟩⟩

/-! ### C4: the filename-information helpers always fail -/

theorem _get_info_loop_none (filename : String) :
    ∀ ps : List String, _get_info_loop filename ps = none := by
  intro ps
  induction ps with
  | nil => rfl
  | cons p rest ih => exact ih

theorem _get_info_from_filename_valueerror (filename : String) (pats : List String) :
    _get_info_from_filename filename pats =
      .ok (.valueErrorObject "Invalid pattern specified.") := by
  unfold _get_info_from_filename
  rw [_get_info_loop_none]

theorem get_key_from_filepath_typeerror (fp key : String) (pat : List String) :
    get_key_from_filepath fp key pat =
      .error (.typeError "'ValueError' object is not subscriptable") := by
  show (get_info_from_filepath fp pat >>= fun r =>
    match r with
    | .infoDict s e =>
      if key = "start_time" then pure s
      else if key = "end_time" then pure e
      else .error (.valueError "KeyError")
    | .valueErrorObject _ =>
      .error (.typeError "'ValueError' object is not subscriptable")) = _
  rw [show get_info_from_filepath fp pat =
    .ok (.valueErrorObject "Invalid pattern specified.") from
    _get_info_from_filename_valueerror _ _, except_bind_ok]

/-- C4: `_get_info_from_filename` calls
`parse_filename_pattern(filename, pattern=pattern)` although the callee's
second parameter is named `filename_pattern`, so every iteration raises
`TypeError` and is swallowed by the bare `except`; the function therefore
returns (never raises) a `ValueError` object for every filename and pattern
list, and `get_start_end_time_from_filepaths` raises for every input:
`TypeError` (subscripting the returned `ValueError`) for a non-empty
filepath list and `NameError` (the module never imports numpy as `np`) for
an empty one. -/
theorem info_filename_helpers_always_fail (filename pattern : String)
    (pats : List String) (filepaths : List String) (pat : List String) :
    parse_filename_pattern_kwcall filename pattern =
      .error (.typeError
        "parse_filename_pattern() got an unexpected keyword argument 'pattern'") ∧
    _get_info_from_filename filename pats =
      .ok (.valueErrorObject "Invalid pattern specified.") ∧
    get_start_end_time_from_filepaths filepaths pat =
      .error (if filepaths = [] then .nameError "name 'np' is not defined"
              else .typeError "'ValueError' object is not subscriptable") := by
  refine ⟨rfl, _get_info_from_filename_valueerror _ _, ?_⟩
  cases filepaths with
  | nil =>
    rw [if_pos rfl]
    rfl
  | cons fp rest =>
    rw [if_neg (by simp)]
    show (get_key_from_filepaths (fp :: rest) "start_time" pat >>= fun _ =>
      get_key_from_filepaths (fp :: rest) "end_time" pat >>= fun _ =>
      .error (.nameError "name 'np' is not defined")) = _
    have hone : get_key_from_filepaths (fp :: rest) "start_time" pat =
        .error (.typeError "'ValueError' object is not subscriptable") := by
      unfold get_key_from_filepaths
      rw [List.mapM_cons, get_key_from_filepath_typeerror]
      rfl
    rw [hone]
    rfl

/-! ### Embedding of the per-granule ingestion pipeline (routines.py) -/

/-- Outcome of the caller-supplied `granule_to_df_func`: a dataframe, the
"no data" sentinel `None`, or a raised exception. -/
inductive ExtractResult (DF : Type) where
  | df (d : DF)
  | none
  | raise (msg : String)

/-- External collaborators of `write_granule_bucket`, abstracted as in the
spec: the extractor is caller-supplied, `add_labels` is
`spatial_partitioning.add_labels` (may raise, e.g. out-of-domain
coordinates), and `write_partitioned_dataset` is the external table-format
writer, taking the filename stem and returning the files it creates (or
raising). -/
structure IngestEnv (DF : Type) where
  granule_to_df_func : String → ExtractResult DF
  add_labels : DF → Except String DF
  write_partitioned_dataset : String → DF → Except String (List String)

/-- `os.path.splitext(name)[0]`: the name up to the last dot. -/
def pySplitextStem (name : String) : String :=
  if (pySplitOn name '.').length ≤ 1 then name
  else String.intercalate "." (pySplitOn name '.').dropLast

/-- `write_granule_bucket` (routines.py lines 66-125): derive the unique
filename stem from the source basename, run the extractor, return having
written nothing when it yields `None`, otherwise label and write. -/
def write_granule_bucket {DF : Type} (env : IngestEnv DF) (src_filepath : String) :
    Except String (List String) :=
  match env.granule_to_df_func src_filepath with
  | .raise msg => .error msg
  | .none => .ok []
  | .df d =>
    match env.add_labels d with
    | .error msg => .error msg
    | .ok d' => env.write_partitioned_dataset (pySplitextStem (pyBasename src_filepath)) d'

/-- `_try_write_granule_bucket` (routines.py lines 128-139): catch any
exception and turn it into a `(src_filepath, error_message)` pair; `None`
means success. -/
def _try_write_granule_bucket {DF : Type} (env : IngestEnv DF) (src : String) :
    Option (String × String) × List String :=
  match write_granule_bucket env src with
  | .ok files => (Option.none, files)
  | .error msg => (some (src, msg), [])

/-- Result of a whole `write_granules_bucket` run: reported failure records
and the files written to the bucket. -/
structure IngestRunResult where
  errors : List (String × String)
  files : List String
deriving DecidableEq

/-- Processing of one source inside a block loop. -/
def ingestStep {DF : Type} (env : IngestEnv DF) (acc : IngestRunResult)
    (src : String) : IngestRunResult :=
  { errors := acc.errors ++ (_try_write_granule_bucket env src).1.toList,
    files := acc.files ++ (_try_write_granule_bucket env src).2 }

/-- Fuel-bounded chunking; `split_list_in_blocks` passes the list length as
fuel, which suffices for every positive block size. -/
def splitBlocksAux {α : Type} : Nat → List α → Nat → List (List α)
  | 0, _, _ => []
  | _ + 1, [], _ => []
  | fuel + 1, l, bs => l.take bs :: splitBlocksAux fuel (l.drop bs) bs

/-- `split_list_in_blocks` (routines.py lines 62-63):
`[values[i : i + block_size] for i in range(0, len(values), block_size)]`. -/
def split_list_in_blocks {α : Type} (values : List α) (block_size : Nat) :
    List (List α) :=
  splitBlocksAux values.length values block_size

/-- `write_granules_bucket` (routines.py lines 143-250): split the sources
into blocks, process every source of every block through
`_try_write_granule_bucket`, collect the failure records, and keep going
regardless of failures. -/
def write_granules_bucket {DF : Type} (env : IngestEnv DF)
    (filepaths : List String) (max_dask_total_tasks : Nat) : IngestRunResult :=
  (split_list_in_blocks filepaths max_dask_total_tasks).foldl
    (fun acc block => block.foldl (ingestStep env) acc)
    { errors := [], files := [] }

theorem splitBlocksAux_flatten {α : Type} (bs : Nat) (hbs : 1 ≤ bs) :
    ∀ fuel (l : List α), l.length ≤ fuel → (splitBlocksAux fuel l bs).flatten = l := by
  intro fuel
  induction fuel with
  | zero =>
    intro l hl
    have hnil : l = [] := List.length_eq_zero.mp (by omega)
    subst hnil
    rfl
  | succ f ih =>
    intro l hl
    cases l with
    | nil => rfl
    | cons a as =>
      show ((a :: as).take bs :: splitBlocksAux f ((a :: as).drop bs) bs).flatten = a :: as
      rw [List.flatten_cons]
      rw [ih ((a :: as).drop bs)
        (by simp only [List.length_drop, List.length_cons] at hl ⊢; omega)]
      exact List.take_append_drop bs (a :: as)

theorem foldl_ingestStep_append {DF : Type} (env : IngestEnv DF) :
    ∀ (l : List String) (acc : IngestRunResult),
      l.foldl (ingestStep env) acc =
        { errors := acc.errors ++ l.filterMap (fun src => (_try_write_granule_bucket env src).1),
          files := acc.files ++
            (l.map (fun src => (_try_write_granule_bucket env src).2)).flatten } := by
  intro l
  induction l with
  | nil => intro acc; simp
  | cons a as ih =>
    intro acc
    rw [List.foldl_cons, ih]
    unfold ingestStep
    cases h : (_try_write_granule_bucket env a).1 <;>
      simp [h, List.filterMap_cons, List.flatten_cons, List.map_cons, List.append_assoc]

theorem foldl_blocks_eq_flatten {DF : Type} (env : IngestEnv DF) :
    ∀ (blocks : List (List String)) (acc : IngestRunResult),
      blocks.foldl (fun acc block => block.foldl (ingestStep env) acc) acc =
        blocks.flatten.foldl (ingestStep env) acc := by
  intro blocks
  induction blocks with
  | nil => intro acc; rfl
  | cons b bs ih =>
    intro acc
    rw [List.foldl_cons, ih, List.flatten_cons, List.foldl_append]

/-- Flat characterisation of a whole ingestion run: the reported failures
are exactly the per-source failure records, in order, and the written files
are the concatenation of every source's writes. -/
theorem write_granules_bucket_spec {DF : Type} (env : IngestEnv DF)
    (paths : List String) (bs : Nat) (hbs : 1 ≤ bs) :
    write_granules_bucket env paths bs =
      { errors := paths.filterMap (fun src => (_try_write_granule_bucket env src).1),
        files := (paths.map (fun src => (_try_write_granule_bucket env src).2)).flatten } := by
  unfold write_granules_bucket split_list_in_blocks
  rw [foldl_blocks_eq_flatten, splitBlocksAux_flatten bs hbs paths.length paths (le_refl _),
    foldl_ingestStep_append]
  simp

/-- The extractor itself raises for this source. -/
def extractorRaises {DF : Type} (env : IngestEnv DF) (src : String) : Bool :=
  match env.granule_to_df_func src with
  | .raise _ => true
  | _ => false

theorem length_filterMap_eq_length_filter {α β : Type} (l : List α)
    (f : α → Option β) (p : α → Bool) (h : ∀ a ∈ l, (f a).isSome = p a) :
    (l.filterMap f).length = (l.filter p).length := by
  induction l with
  | nil => rfl
  | cons a as ih =>
    have ha := h a (List.mem_cons_self _ _)
    have hrest := fun x hx => h x (List.mem_cons_of_mem _ hx)
    cases hfa : f a with
    | none =>
      have hpa : p a = false := by rw [← ha]; simp [hfa]
      simp [List.filterMap_cons, List.filter_cons, hfa, hpa, ih hrest]
    | some b =>
      have hpa : p a = true := by rw [← ha]; simp [hfa]
      simp [List.filterMap_cons, List.filter_cons, hfa, hpa, ih hrest]

theorem length_filter_add_not {α : Type} (l : List α) (p : α → Bool) :
    (l.filter p).length + (l.filter (fun a => !p a)).length = l.length := by
  induction l with
  | nil => rfl
  | cons a as ih => cases hpa : p a <;> simp [List.filter_cons, hpa] <;> omega

/-- C5: an exception in one source's ingestion is converted into a
`(source_path, error_message)` record and does not abort the other
sources: with 5 sources of which exactly 1 raises inside the extractor (and
the others write successfully), the run reports exactly 1 failure record
and the bucket writes of the other 4 sources are all performed. -/
theorem write_granules_bucket_isolates_failures {DF : Type} (env : IngestEnv DF)
    (paths : List String) (bs : Nat) (hbs : 1 ≤ bs)
    (hlen : paths.length = 5)
    (hfail : (paths.filter (fun src => extractorRaises env src)).length = 1)
    (hok : ∀ src ∈ paths, extractorRaises env src = false →
      ∃ files, write_granule_bucket env src = .ok files) :
    (write_granules_bucket env paths bs).errors.length = 1 ∧
    (paths.filter (fun src => !extractorRaises env src)).length = 4 ∧
    (∀ src ∈ paths, ∀ files, write_granule_bucket env src = .ok files →
      ∀ file ∈ files, file ∈ (write_granules_bucket env paths bs).files) := by
  have hspec := write_granules_bucket_spec env paths bs hbs
  have hpoint : ∀ src ∈ paths,
      ((_try_write_granule_bucket env src).1).isSome = extractorRaises env src := by
    intro src hsrc
    by_cases hr : extractorRaises env src = true
    · cases hg : env.granule_to_df_func src with
      | raise msg =>
        have hw : write_granule_bucket env src = .error msg := by
          unfold write_granule_bucket
          rw [hg]
        unfold _try_write_granule_bucket
        rw [hw, hr]
        rfl
      | df d =>
        exfalso
        unfold extractorRaises at hr
        rw [hg] at hr
        simp at hr
      | none =>
        exfalso
        unfold extractorRaises at hr
        rw [hg] at hr
        simp at hr
    · have hr' : extractorRaises env src = false := by simpa using hr
      obtain ⟨files, hw⟩ := hok src hsrc hr'
      unfold _try_write_granule_bucket
      rw [hw, hr']
      rfl
  refine ⟨?_, ?_, ?_⟩
  · rw [hspec]
    show (paths.filterMap (fun src => (_try_write_granule_bucket env src).1)).length = 1
    rw [length_filterMap_eq_length_filter paths _ _ hpoint, hfail]
  · have := length_filter_add_not paths (fun src => extractorRaises env src)
    omega
  · intro src hsrc files hw file hfile
    rw [hspec]
    show file ∈ (paths.map (fun src => (_try_write_granule_bucket env src).2)).flatten
    rw [List.mem_flatten]
    refine ⟨(_try_write_granule_bucket env src).2, List.mem_map.mpr ⟨src, hsrc, rfl⟩, ?_⟩
    unfold _try_write_granule_bucket
    rw [hw]
    exact hfile

/-- Concrete ingestion environment for the witness: source `g2.HDF5` raises
inside the extractor, every other source extracts and writes one file. -/
def ingestWitnessEnv : IngestEnv Unit where
  granule_to_df_func := fun s => if s = "g2.HDF5" then .raise "boom" else .df ()
  add_labels := fun d => .ok d
  write_partitioned_dataset := fun pfx _ => .ok [pfx ++ "_0.parquet"]

/-- Witness for `write_granules_bucket_isolates_failures` on 5 concrete
sources with exactly one extractor failure. -/
theorem write_granules_bucket_isolates_failures_witness :
    ((1:Nat) ≤ 500 ∧
      (["g1.HDF5", "g2.HDF5", "g3.HDF5", "g4.HDF5", "g5.HDF5"] : List String).length = 5 ∧
      ((["g1.HDF5", "g2.HDF5", "g3.HDF5", "g4.HDF5", "g5.HDF5"] : List String).filter
        (fun src => extractorRaises ingestWitnessEnv src)).length = 1) ∧
    ((write_granules_bucket ingestWitnessEnv
        ["g1.HDF5", "g2.HDF5", "g3.HDF5", "g4.HDF5", "g5.HDF5"] 500).errors.length = 1 ∧
      ((["g1.HDF5", "g2.HDF5", "g3.HDF5", "g4.HDF5", "g5.HDF5"] : List String).filter
        (fun src => !extractorRaises ingestWitnessEnv src)).length = 4 ∧
      (∀ src ∈ (["g1.HDF5", "g2.HDF5", "g3.HDF5", "g4.HDF5", "g5.HDF5"] : List String),
        ∀ files, write_granule_bucket ingestWitnessEnv src = .ok files →
        ∀ file ∈ files, file ∈ (write_granules_bucket ingestWitnessEnv
          ["g1.HDF5", "g2.HDF5", "g3.HDF5", "g4.HDF5", "g5.HDF5"] 500).files)) :=
  ⟨⟨by decide, by decide, by decide⟩,
    write_granules_bucket_isolates_failures ingestWitnessEnv
      ["g1.HDF5", "g2.HDF5", "g3.HDF5", "g4.HDF5", "g5.HDF5"] 500
      (by decide) (by decide) (by decide)
      (by
        intro src hsrc h
        fin_cases hsrc
        · exact ⟨_, rfl⟩
        · exact absurd h (by decide)
        · exact ⟨_, rfl⟩
        · exact ⟨_, rfl⟩
        · exact ⟨_, rfl⟩)⟩

/-- C8: a source whose extractor returns the "no data" sentinel makes
`write_granule_bucket` return successfully with zero files written, and
`_try_write_granule_bucket` records no failure for it. -/
theorem write_granule_bucket_nodata {DF : Type} (env : IngestEnv DF) (src : String)
    (h : env.granule_to_df_func src = .none) :
    write_granule_bucket env src = .ok [] ∧
    _try_write_granule_bucket env src = (Option.none, []) := by
  have h1 : write_granule_bucket env src = .ok [] := by
    unfold write_granule_bucket
    rw [h]
  refine ⟨h1, ?_⟩
  unfold _try_write_granule_bucket
  rw [h1]

/-- Concrete environment whose extractor always returns the "no data"
sentinel. -/
def noDataEnv : IngestEnv Unit where
  granule_to_df_func := fun _ => .none
  add_labels := fun d => .ok d
  write_partitioned_dataset := fun pfx _ => .ok [pfx ++ "_0.parquet"]

/-- Witness for `write_granule_bucket_nodata`. -/
theorem write_granule_bucket_nodata_witness :
    noDataEnv.granule_to_df_func "granule.HDF5" = .none ∧
    write_granule_bucket noDataEnv "granule.HDF5" = .ok [] :=
  ⟨rfl, (write_granule_bucket_nodata noDataEnv "granule.HDF5" rfl).1⟩

/-! ### Embedding of merge_granule_buckets (routines.py lines 529-853) -/

/-- The introspection surface of a spatial partitioning used by the merge
routine: the number of directory levels and the candidate partition
directory trees. -/
structure SpatialPartitioningInfo where
  n_levels : Nat
  directories : List String
deriving DecidableEq

/-- The archive-level metadata record: spatial partitioning configuration
and, for consolidated archives, the temporal granularity string. -/
structure BucketMeta where
  spatial : SpatialPartitioningInfo
  temporal : String
deriving DecidableEq

/-- Model of the filesystem state seen by the merge routine: existing
directories, existing files, and the per-archive-root metadata records. -/
structure FS where
  dirs : List String
  files : List String
  info : List (String × BucketMeta)
deriving DecidableEq

/-- `os.path.exists`. -/
def FS.pathExists (fs : FS) (p : String) : Bool :=
  fs.dirs.contains p || fs.files.contains p

/-- Python `str.endswith`. -/
def pyEndswith (s suf : String) : Bool := suf.data.isSuffixOf s.data

/-- Modelled from the spec: `write_bucket_info` (satbucket.io, not under
src/) persists the archive-level metadata record — the spatial partitioning
configuration and the temporal granularity — at the archive root, creating
the root directory. -/
def write_bucket_info (fs : FS) (bucket_dir : String) (meta : BucketMeta) : FS :=
  { fs with
    dirs := if fs.dirs.contains bucket_dir then fs.dirs else bucket_dir :: fs.dirs,
    info := (bucket_dir, meta) :: fs.info }

/-- Modelled from the spec: `get_bucket_spatial_partitioning` (satbucket.io,
not under src/) reads the stored spatial partitioning configuration of an
archive root. -/
def get_bucket_spatial_partitioning (fs : FS) (bucket_dir : String) :
    Except PyError SpatialPartitioningInfo :=
  match fs.info.lookup bucket_dir with
  | some m => .ok m.spatial
  | Option.none => .error (.osError "bucket info file not found")

/-- Modelled from the spec: `get_bucket_temporal_partitioning`
(satbucket.io, not under src/) reads the stored temporal granularity of a
consolidated archive root. -/
def get_bucket_temporal_partitioning (fs : FS) (bucket_dir : String) :
    Except PyError String :=
  match fs.info.lookup bucket_dir with
  | some m => .ok m.temporal
  | Option.none => .error (.osError "bucket info file not found")

/-- Modelled from the spec: `check_start_end_time` (satbucket.checks, not
under src/) validates the pair of time bounds and returns it. -/
def check_start_end_time (s e : Timestamp) : Except PyError (Timestamp × Timestamp) :=
  if e < s then .error (.valueError "end_time must not precede start_time")
  else .ok (s, e)

/-- Modelled from the spec: `get_exisiting_partitions_paths` (satbucket.io,
not under src/) keeps, out of every candidate partition directory tree of
the partitioning, those that exist under the bucket root. -/
def get_exisiting_partitions_paths (fs : FS) (bucket_dir : String)
    (dir_trees : List String) : List String :=
  (dir_trees.map (fun tree => bucket_dir ++ "/" ++ tree)).filter
    (fun p => fs.dirs.contains p)

/-- `sep.join(path.strip(sep).split(sep)[-n:])`: the last `n` path
components (paths in this model carry no leading or trailing slash). -/
def lastNComponents (n : Nat) (path : String) : String :=
  String.intercalate "/" (((pySplitOn path '/').reverse.take n).reverse)

/-- `define_dict_partitions` (routines.py lines 335-348). -/
def define_dict_partitions (fs : FS) (src_bucket_dir : String)
    (src_spatial_partitioning : SpatialPartitioningInfo)
    (dst_spatial_partitioning : Option SpatialPartitioningInfo) :
    Except PyError (List (String × List String)) :=
  match dst_spatial_partitioning with
  | some _ => .error (.notImplementedError "Repartitioning not yet implemented.")
  | Option.none =>
    .ok ((get_exisiting_partitions_paths fs src_bucket_dir
        src_spatial_partitioning.directories).map
      (fun path => (lastNComponents src_spatial_partitioning.n_levels path, [path])))

/-- Modelled from the spec: `get_first_file` (satbucket.utils.directories,
not under src/) returns the first file inside a directory, if any. -/
def get_first_file (fs : FS) (path : String) : Option String :=
  (fs.files.filter (fun f => pyStartswith f (path ++ "/"))).head?

/-- `get_template_table` (routines.py lines 351-369): the first parquet
file found across the source partition directories (the table reading
itself is the external format engine; the file handle stands for the
template). -/
def get_template_table (fs : FS)
    (dict_partitions : List (String × List String)) : Except PyError String :=
  match ((dict_partitions.map Prod.snd).flatten.filterMap
      (fun p => get_first_file fs p)).head? with
  | some fp => .ok fp
  | Option.none => .error (.valueError "No file found in the source bucket archive.")

/-- Modelled from the spec: `get_filepaths_within_paths` (satbucket.io, not
under src/) lists the files with the given extension inside the given
directories. -/
def get_filepaths_within_paths (fs : FS) (paths : List String)
    (file_extension : String) : List String :=
  fs.files.filter (fun f =>
    paths.any (fun p => pyStartswith f (p ++ "/")) && pyEndswith f file_extension)

/-- Modelled from the spec: `filter_filepaths` (satbucket.filters, not
under src/) discards the files whose declared time range — derived from
filename metadata, here an oracle `fileTimeRange` — does not intersect
`[start_time, end_time)`. -/
def filter_filepaths (fileTimeRange : String → Option (Timestamp × Timestamp))
    (filepaths : List String) (s e : Timestamp) : List String :=
  filepaths.filter (fun f =>
    match fileTimeRange f with
    | some (fstart, fend) => decide (fstart < e) && decide (s ≤ fend)
    | Option.none => true)

/-- Minimum / maximum of a non-empty timestamp list (`.min()` / `.max()`
on the per-file time arrays; dead code in practice, see
`group_files_by_time`). -/
def listMinT : List Timestamp → Timestamp
  | [] => ⟨0, 0, 0, 0⟩
  | a :: r => r.foldl pymin a

def listMaxT : List Timestamp → Timestamp
  | [] => ⟨0, 0, 0, 0⟩
  | a :: r => r.foldl pymax a

/-- `group_files_by_time` (routines.py lines 474-504): derive each file's
time range from its filename, default the run bounds to the archive-wide
extremes, window the range, and keep each window with the files
intersecting it.  Note the very first step calls
`get_start_end_time_from_filepaths`, which always raises (see
`info_filename_helpers_always_fail`), so the remainder never runs. -/
def group_files_by_time (filepaths : List String)
    (start_time end_time : Option Timestamp) (tp : String)
    (filename_pattern : String) :
    Except PyError (List (String × Timestamp × Timestamp × List String)) := do
  let (l_start, l_end) ← get_start_end_time_from_filepaths filepaths [filename_pattern]
  let s := match start_time with | some t => t | Option.none => listMinT l_start
  let e := match end_time with | some t => t | Option.none => listMaxT l_end
  let periods ← get_list_group_periods s e tp
  let triples := filepaths.zip (l_start.zip l_end)
  .ok (periods.filterMap (fun w =>
    let group_files := (triples.filter (fun tr =>
      decide (tr.2.1 < w.2.2) && decide (w.2.1 ≤ tr.2.2))).map Prod.fst
    if group_files.isEmpty then Option.none
    else some (w.1, w.2.1, w.2.2, group_files)))

/-- The update-mode deletion step (routines.py lines 791-810): ensure the
destination partition directory exists, then remove every existing
`.parquet` file of that directory whose basename starts with the time
label of a group about to be rewritten. -/
def deleteStaleFiles (fs : FS) (dst_partition_dir : String)
    (time_labels : List String) : FS :=
  { fs with
    dirs := if fs.dirs.contains dst_partition_dir then fs.dirs
            else dst_partition_dir :: fs.dirs,
    files := fs.files.filter (fun f =>
      !(pyStartswith f (dst_partition_dir ++ "/") && pyEndswith f ".parquet" &&
        time_labels.any (fun pfx => pyStartswith (pyBasename f) pfx))) }

/-- Modelled from the spec: `pyarrow.dataset.write_dataset` (external
table-format writer) creates the destination partition directory and writes
the window's rows into files `<time_label>_<i>.parquet`; modelled as one
file per window. -/
def writeGroupDataset (fs : FS) (dst_partition_dir pfx : String) : FS :=
  { fs with
    dirs := if fs.dirs.contains dst_partition_dir then fs.dirs
            else dst_partition_dir :: fs.dirs,
    files := fs.files ++ [dst_partition_dir ++ "/" ++ pfx ++ "_0.parquet"] }

/-- The body of the per-partition loop of `merge_granule_buckets`
(routines.py lines 751-848). -/
def mergeProcessPartition (fileTimeRange : String → Option (Timestamp × Timestamp))
    (dst_bucket_dir : String) (update : Bool)
    (start_time end_time : Option Timestamp) (tp filename_pattern : String)
    (fs : FS) (entry : String × List String) : FS × Option PyError :=
  let filepaths := get_filepaths_within_paths fs entry.2 ".parquet"
  let filepaths :=
    match start_time, end_time with
    | some s, some e => filter_filepaths fileTimeRange filepaths s e
    | _, _ => filepaths
  if filepaths.isEmpty then (fs, Option.none)
  else
    let dst_partition_dir := dst_bucket_dir ++ "/" ++ entry.1
    if !update && fs.pathExists dst_partition_dir then
      (fs, some (.valueError ("The partition " ++ entry.1 ++
        " already exists. Use update=True to update an archive.")))
    else
      match group_files_by_time filepaths start_time end_time tp filename_pattern with
      | .error e => (fs, some e)
      | .ok groups =>
        let fs := if update then deleteStaleFiles fs dst_partition_dir (groups.map Prod.fst)
                  else fs
        (groups.foldl (fun fs g => writeGroupDataset fs dst_partition_dir g.1) fs,
          Option.none)

/-- Sequential iteration over the destination partitions; a raised error
aborts the whole run, leaving the filesystem as already modified. -/
def mergeLoop (fileTimeRange : String → Option (Timestamp × Timestamp))
    (dst_bucket_dir : String) (update : Bool)
    (start_time end_time : Option Timestamp) (tp filename_pattern : String) :
    List (String × List String) → FS → FS × Option PyError
  | [], fs => (fs, Option.none)
  | entry :: rest, fs =>
    match mergeProcessPartition fileTimeRange dst_bucket_dir update
        start_time end_time tp filename_pattern fs entry with
    | (fs', Option.none) =>
      mergeLoop fileTimeRange dst_bucket_dir update start_time end_time tp
        filename_pattern rest fs'
    | (fs', some e) => (fs', some e)

/-- Arguments of `merge_granule_buckets` relevant to its control flow. -/
structure MergeArgs where
  src_bucket_dir : String
  dst_bucket_dir : String
  filename_pattern : String
  dst_spatial_partitioning : Option SpatialPartitioningInfo
  temporal_partitioning : String
  start_time : Option Timestamp
  end_time : Option Timestamp
  update : Bool
  write_metadata : Bool

/-- `merge_granule_buckets` (routines.py lines 529-853), as a transformer
of the filesystem state returning the state reached together with the
exception aborting the run, if any.  The external format engine
(schema/writer options, lines 719-740) performs no filesystem effect and
is not represented. -/
def merge_granule_buckets (fileTimeRange : String → Option (Timestamp × Timestamp))
    (args : MergeArgs) (fs : FS) : FS × Option PyError :=
  if args.update && !(fs.pathExists args.dst_bucket_dir) then
    (fs, some (.osError "The bucket directory does not exist."))
  else if args.update && args.write_metadata then
    (fs, some (.notImplementedError
      "If update=True, it is currently not possible to update the metadata."))
  else if args.update && (args.start_time.isNone || args.end_time.isNone) then
    (fs, some (.valueError "Define both start_time and end_time if update=True."))
  else
    let stepCheck : Except PyError Unit :=
      if args.update then
        match args.start_time, args.end_time with
        | some s, some e => (check_start_end_time s e).map (fun _ => ())
        | _, _ => .ok ()
      else .ok ()
    match stepCheck with
    | .error e => (fs, some e)
    | .ok _ =>
      match get_bucket_spatial_partitioning fs args.src_bucket_dir with
      | .error e => (fs, some e)
      | .ok src_spatial =>
        let resolve : Except PyError (SpatialPartitioningInfo × String) :=
          if args.update then
            (get_bucket_spatial_partitioning fs args.dst_bucket_dir).bind (fun dsp =>
              (get_bucket_temporal_partitioning fs args.dst_bucket_dir).map
                (fun t => (dsp, t)))
          else
            match args.dst_spatial_partitioning with
            | Option.none => .ok (src_spatial, args.temporal_partitioning)
            | some _ => .error (.notImplementedError "Repartitioning not implemented yet.")
        match resolve with
        | .error e => (fs, some e)
        | .ok (dst_spatial, tp) =>
          match check_temporal_partitioning tp with
          | .error e => (fs, some e)
          | .ok _ =>
            match define_dict_partitions fs args.src_bucket_dir src_spatial
                Option.none with
            | .error e => (fs, some e)
            | .ok dict_partitions =>
              let fs1 := if args.update then fs
                else write_bucket_info fs args.dst_bucket_dir ⟨dst_spatial, tp⟩
              match get_template_table fs1 dict_partitions with
              | .error e => (fs1, some e)
              | .ok _ =>
                match mergeLoop fileTimeRange args.dst_bucket_dir args.update
                    args.start_time args.end_time tp args.filename_pattern
                    dict_partitions fs1 with
                | (fs2, some e) => (fs2, some e)
                | (fs2, Option.none) =>
                  if args.write_metadata then
                    ({ fs2 with files := fs2.files ++
                        [args.dst_bucket_dir ++ "/_metadata"] }, Option.none)
                  else (fs2, Option.none)

theorem get_start_end_time_error (filepaths : List String) (pat : List String) :
    get_start_end_time_from_filepaths filepaths pat =
      .error (if filepaths = [] then .nameError "name 'np' is not defined"
              else .typeError "'ValueError' object is not subscriptable") := by
  cases filepaths with
  | nil =>
    rw [if_pos rfl]
    rfl
  | cons fp rest =>
    rw [if_neg (by simp)]
    show (get_key_from_filepaths (fp :: rest) "start_time" pat >>= fun _ =>
      get_key_from_filepaths (fp :: rest) "end_time" pat >>= fun _ =>
      .error (.nameError "name 'np' is not defined")) = _
    have hone : get_key_from_filepaths (fp :: rest) "start_time" pat =
        .error (.typeError "'ValueError' object is not subscriptable") := by
      unfold get_key_from_filepaths
      rw [List.mapM_cons, get_key_from_filepath_typeerror]
      rfl
    rw [hone]
    rfl

theorem group_files_by_time_raises (filepaths : List String) (hne : filepaths ≠ [])
    (st et : Option Timestamp) (tp pat : String) :
    group_files_by_time filepaths st et tp pat =
      .error (.typeError "'ValueError' object is not subscriptable") := by
  unfold group_files_by_time
  rw [get_start_end_time_error, if_neg hne]
  rfl

/-- Filesystem for the update-mode metadata scenario: source and
destination archives both carry a stored metadata record; the destination
stores granularity `"day"`. -/
def mergeStoredMetaFs : FS :=
  ⟨["src", "dst", "src/p1"], ["src/p1/a.parquet"],
    [("src", ⟨⟨1, ["p1"]⟩, "month"⟩), ("dst", ⟨⟨1, ["p1"]⟩, "day"⟩)]⟩

/-- C7: with `update=True`, a missing destination aborts with `OSError`
(DestinationMissing) and a missing time bound aborts with `ValueError`
(MissingTimeBounds), in both cases before any filesystem modification; the
result of an update run does not depend on the caller-supplied
`temporal_partitioning`; and the granularity actually used comes from the
destination archive's stored metadata (with stored `"day"`, the run fails
in `check_temporal_partitioning` although the caller passed the accepted
value `"year"`). -/
theorem merge_update_mode_contract
    (fileTimeRange : String → Option (Timestamp × Timestamp))
    (src dst pat : String) (dsp : Option SpatialPartitioningInfo)
    (tp tp' : String) (st et : Option Timestamp) (wm : Bool) (fs : FS) :
    (fs.pathExists dst = false →
      merge_granule_buckets fileTimeRange ⟨src, dst, pat, dsp, tp, st, et, true, wm⟩ fs =
        (fs, some (.osError "The bucket directory does not exist."))) ∧
    (fs.pathExists dst = true → (st = Option.none ∨ et = Option.none) →
      merge_granule_buckets fileTimeRange ⟨src, dst, pat, dsp, tp, st, et, true, false⟩ fs =
        (fs, some (.valueError "Define both start_time and end_time if update=True."))) ∧
    (merge_granule_buckets fileTimeRange ⟨src, dst, pat, dsp, tp, st, et, true, wm⟩ fs =
      merge_granule_buckets fileTimeRange ⟨src, dst, pat, dsp, tp', st, et, true, wm⟩ fs) ∧
    ((merge_granule_buckets (fun _ => Option.none)
        ⟨"src", "dst", "pat", Option.none, "year",
          some ⟨2021, 1, 1, 0⟩, some ⟨2021, 2, 1, 0⟩, true, false⟩ mergeStoredMetaFs).2 =
      some (.valueError "Invalid value. Valid values are year, month, season, quarter")) := by
  refine ⟨?_, ?_, rfl, rfl⟩
  · intro h
    unfold merge_granule_buckets
    simp [h]
  · intro h hnone
    unfold merge_granule_buckets
    rcases hnone with rfl | rfl
    · simp [h]
    · simp [h]

/-- Filesystem with a source archive but no destination archive. -/
def mergeNoDstFs : FS := ⟨["src"], [], []⟩

/-- Witness for `merge_update_mode_contract`: a concrete update run against
a missing destination fails with the `OSError`. -/
theorem merge_update_mode_contract_witness :
    mergeNoDstFs.pathExists "dst" = false ∧
    merge_granule_buckets (fun _ => Option.none)
      ⟨"src", "dst", "pat", Option.none, "year", Option.none, Option.none, true, false⟩
      mergeNoDstFs =
      (mergeNoDstFs, some (.osError "The bucket directory does not exist.")) :=
  ⟨by decide,
    (merge_update_mode_contract (fun _ => Option.none) "src" "dst" "pat" Option.none
      "year" "year" Option.none Option.none false mergeNoDstFs).1 (by decide)⟩

/-- Source archive with one non-empty partition `p1`; no destination. -/
def mergeBugFs0 : FS :=
  ⟨["src", "src/p1"], ["src/p1/granuleA_0.parquet"],
    [("src", ⟨⟨1, ["p1"]⟩, "month"⟩)]⟩

/-- A non-update merge invocation (defaults: no time bounds, no metadata). -/
def mergeBugArgs : MergeArgs :=
  ⟨"src", "dst", "pat", Option.none, "year", Option.none, Option.none, false, false⟩

/-- Same source archive, but the destination partition directory `dst/p1`
already exists. -/
def mergeExistingFs : FS :=
  ⟨["src", "src/p1", "dst", "dst/p1"], ["src/p1/granuleA_0.parquet"],
    [("src", ⟨⟨1, ["p1"]⟩, "month"⟩)]⟩

/-- C6 (code bug): when the destination partition directory already exists
and `update=False`, the run does raise the PartitionAlreadyExists
`ValueError` before writing that partition; but the "second run raises
PartitionAlreadyExists" scenario is unreachable: a first run on a fresh
destination aborts with `TypeError` inside `group_files_by_time` (the
`_get_info_from_filename` defect) before creating any destination partition
directory, so the second run fails with the same `TypeError` instead. -/
theorem merge_double_run_parse_bug :
    (∃ fs1 : FS,
      merge_granule_buckets (fun _ => Option.none) mergeBugArgs mergeBugFs0 =
        (fs1, some (.typeError "'ValueError' object is not subscriptable")) ∧
      fs1.files = mergeBugFs0.files ∧
      fs1.pathExists "dst/p1" = false ∧
      (merge_granule_buckets (fun _ => Option.none) mergeBugArgs fs1).2 =
        some (.typeError "'ValueError' object is not subscriptable")) ∧
    merge_granule_buckets (fun _ => Option.none) mergeBugArgs mergeExistingFs =
      (write_bucket_info mergeExistingFs "dst" ⟨⟨1, ["p1"]⟩, "year"⟩,
        some (.valueError
          "The partition p1 already exists. Use update=True to update an archive.")) :=
  ⟨⟨_, rfl, rfl, rfl, rfl⟩, rfl⟩

/-- Source archive with two partitions: `p1` and `p2`, both non-empty; no
destination. -/
def mergeTwoPartFs : FS :=
  ⟨["src", "src/p1", "src/p2"],
    ["src/p1/a_0.parquet", "src/p2/b_0.parquet"],
    [("src", ⟨⟨1, ["p1", "p2"]⟩, "month"⟩)]⟩

/-- Source archive where partition `p1` is empty, `p2` is non-empty, and
the destination partition directory `dst/p2` already exists. -/
def mergePartialFs : FS :=
  ⟨["src", "src/p1", "src/p2", "dst", "dst/p2"],
    ["src/p2/b_0.parquet"],
    [("src", ⟨⟨1, ["p1", "p2"]⟩, "month"⟩)]⟩

/-- C10 (code bug): a non-update run over two non-empty partitions aborts
with `TypeError` at the first partition, before writing any consolidated
file — so a run can never consolidate some partitions and only then hit
PartitionAlreadyExists.  When PartitionAlreadyExists is raised (every
earlier partition necessarily empty), the run has written no consolidated
file either; no rollback of the modifications it did perform happens (the
destination bucket metadata written at the start of the run persists). -/
theorem merge_no_partial_consolidation_before_error :
    ((merge_granule_buckets (fun _ => Option.none) mergeBugArgs mergeTwoPartFs).2 =
        some (.typeError "'ValueError' object is not subscriptable") ∧
      ((merge_granule_buckets (fun _ => Option.none) mergeBugArgs mergeTwoPartFs).1).files =
        mergeTwoPartFs.files) ∧
    ((merge_granule_buckets (fun _ => Option.none) mergeBugArgs mergePartialFs).2 =
        some (.valueError
          "The partition p2 already exists. Use update=True to update an archive.") ∧
      ((merge_granule_buckets (fun _ => Option.none) mergeBugArgs mergePartialFs).1).files =
        mergePartialFs.files ∧
      ((merge_granule_buckets (fun _ => Option.none) mergeBugArgs mergePartialFs).1).info ≠
        mergePartialFs.info) :=
  ⟨⟨rfl, rfl⟩, ⟨rfl, rfl, by decide⟩⟩
